import Mathlib

/-! Finite-volume HLL / HLLC solver: embedding of `Def.cpp` and `Scheme.cpp`.

The C++ `double` values are embedded as elements of a linearly ordered field `K`
(exact arithmetic); the library square root `sqrt` of `<cmath>` is passed to every
function that calls it, so that all definitions stay executable (for instance over `ℚ`).
The theorems that use properties of the square root instantiate `K` with `ℝ` and `sqrt`
with `Real.sqrt`; the others hold for every `K` and every `sqrt`.

`int` values are embedded as `Int`; C++ `/` and `%` truncate toward zero, which is
`Int.tdiv` and `Int.tmod`.

`std::unordered_map<int, Cell>` is embedded as an association list; `.at(k)` is a
lookup that yields `Fault.outOfRange` where C++ throws `std::out_of_range`.
-/

namespace FVM

/-! ## Def.cpp -/

/-- The grid constants `Def::xInner`, `Def::yInner` and `Def::gl`; they are declared
in `Def.h` and used by `Def.cpp`. -/
structure Grid where
  xInner : Int
  yInner : Int
  gl : Int
  deriving DecidableEq, Repr

namespace Def

/-- Constant `Def::KAPPA` (Def.cpp line 11). -/
def KAPPA {K : Type} [LinearOrderedField K] : K := 1.4

/-- Constant `Def::rhoInitial` (Def.cpp line 18). -/
def rhoInitial {K : Type} [LinearOrderedField K] : K := 1

/-- Constant `Def::uInitial` (Def.cpp line 19). -/
def uInitial {K : Type} [LinearOrderedField K] : K := 0.65

/-- Constant `Def::vInitial` (Def.cpp line 20). -/
def vInitial {K : Type} [LinearOrderedField K] : K := 0

/-- Constant `Def::pInitial` (Def.cpp line 21). -/
def pInitial {K : Type} [LinearOrderedField K] : K := 0.75

/-- Constant `Def::inner` (Def.cpp line 27). -/
def inner (g : Grid) : Int := g.xInner * g.yInner

/-- Constant `Def::xCells` (Def.cpp line 34). -/
def xCells (g : Grid) : Int := g.xInner + 2 * g.gl + 1

/-- Constant `Def::yCells` (Def.cpp line 35). -/
def yCells (g : Grid) : Int := g.yInner + 2 * g.gl + 1

/-- Constant `Def::cells` (Def.cpp line 36). -/
def cells (g : Grid) : Int := xCells g * yCells g

/-- Constant `Def::firstInner` (Def.cpp line 38). -/
def firstInner (g : Grid) : Int := xCells g * g.gl + g.gl

/-- Function `Def::innerIndex` (Def.cpp lines 44-46). -/
def innerIndex (g : Grid) (i : Int) : Int :=
  firstInner g + Int.tmod i g.xInner + (Int.tdiv i g.xInner) * xCells g

end Def

/-- The ordinals `0 <= i < Def::inner` of the inner cells. -/
def innerOrdinals (g : Grid) : Set Int := {i | 0 ≤ i ∧ i < Def.inner g}

/-- The indices of the non-ghost cells: row `gl + r`, column `gl + c` of the raster. -/
def nonGhostCells (g : Grid) : Set Int :=
  {k | ∃ r c : Int, 0 ≤ r ∧ r < g.yInner ∧ 0 ≤ c ∧ c < g.xInner ∧
    k = (g.gl + r) * (g.xInner + 2 * g.gl + 1) + g.gl + c}

/-! ## Conservative, Primitive, Cell, Interface

These types are declared in headers (`Conservative.h`, `Primitive.h`, `Cell.h`,
`Interface.h`); their fields are the ones `Scheme.cpp` reads and writes. -/

/-- The conservative state: density, x-momentum, y-momentum, total energy
(`r1`, `r2`, `r3`, `r4` in `Scheme::flux`). -/
structure Conservative (K : Type) where
  r1 : K
  r2 : K
  r3 : K
  r4 : K
  deriving DecidableEq, Repr

namespace Conservative

variable {K : Type} [LinearOrderedField K]

/-- Modelled from the spec: `Conservative::operator+`, component-wise
("Arithmetic closure required: addition, subtraction, scalar multiplication/division,
all component-wise"); the operators of `Conservative` are not part of the sources. -/
def add (a b : Conservative K) : Conservative K :=
  ⟨a.r1 + b.r1, a.r2 + b.r2, a.r3 + b.r3, a.r4 + b.r4⟩

/-- Modelled from the spec: `Conservative::operator-`, component-wise. -/
def sub (a b : Conservative K) : Conservative K :=
  ⟨a.r1 - b.r1, a.r2 - b.r2, a.r3 - b.r3, a.r4 - b.r4⟩

/-- Modelled from the spec: `operator*(double, Conservative)`, component-wise. -/
def smul (s : K) (a : Conservative K) : Conservative K :=
  ⟨s * a.r1, s * a.r2, s * a.r3, s * a.r4⟩

/-- Modelled from the spec: `Conservative::operator*(double)`, component-wise. -/
def muls (a : Conservative K) (s : K) : Conservative K :=
  ⟨a.r1 * s, a.r2 * s, a.r3 * s, a.r4 * s⟩

/-- Modelled from the spec: `Conservative::operator/(double)`, component-wise. -/
def divs (a : Conservative K) (s : K) : Conservative K :=
  ⟨a.r1 / s, a.r2 / s, a.r3 / s, a.r4 / s⟩

/-- The zero state; `Conservative res{}` and `rezi = 0` produce it. -/
def zero : Conservative K := ⟨0, 0, 0, 0⟩

instance : Add (Conservative K) := ⟨add⟩

instance : Sub (Conservative K) := ⟨sub⟩

instance : SMul K (Conservative K) := ⟨smul⟩

instance : Zero (Conservative K) := ⟨zero⟩

end Conservative

/-- The primitive variables returned by `Primitive::computePV`. -/
structure Primitive (K : Type) where
  rho : K
  u : K
  v : K
  p : K
  c : K
  h : K
  U : K
  deriving DecidableEq, Repr

namespace Primitive

variable {K : Type} [LinearOrderedField K]

/-- Modelled from the spec: `Primitive::computePV` (`Primitive.cpp` is not part of the
sources). "given Conservative w, returns velocity components (momentum / density),
pressure from the ideal-gas relation `p = (γ−1)(E − ½ρ(u²+v²))`, speed of sound
`c = sqrt(γp/ρ)`, specific enthalpy `h = (E+p)/ρ`, and speed magnitude `U`". -/
def computePV (sqrt : K → K) (w : Conservative K) : Primitive K :=
  let rho := w.r1
  let u := w.r2 / rho
  let v := w.r3 / rho
  let p := (Def.KAPPA - 1) * (w.r4 - 0.5 * rho * (u ^ 2 + v ^ 2))
  { rho := rho
    u := u
    v := v
    p := p
    c := sqrt (Def.KAPPA * p / rho)
    h := (w.r4 + p) / rho
    U := sqrt (u ^ 2 + v ^ 2) }

end Primitive

namespace Def

variable {K : Type} [LinearOrderedField K]

/-- The total energy of a primitive state, by the expression of `Def::rhoEInitial`
(Def.cpp line 22). -/
def rhoE (rho u v p : K) : K :=
  p / (KAPPA - 1) + 0.5 * rho * (u ^ 2 + v ^ 2)

/-- The conservative state of a primitive state, by the expression of `Def::wInitial`
(Def.cpp line 23). -/
def conservativeOf (rho u v p : K) : Conservative K :=
  ⟨rho, rho * u, rho * v, rhoE rho u v p⟩

/-- Constant `Def::rhoEInitial` (Def.cpp line 22). -/
def rhoEInitial : K := rhoE rhoInitial uInitial vInitial pInitial

/-- Constant `Def::wInitial` (Def.cpp line 23). -/
def wInitial : Conservative K := conservativeOf rhoInitial uInitial vInitial pInitial

end Def

/-- An edge direction of a cell: unit vector `(ux, uy)` and `length`. -/
structure Vector (K : Type) where
  ux : K
  uy : K
  length : K
  deriving DecidableEq, Repr

/-- A mesh cell. -/
structure Cell (K : Type) where
  w : Conservative K
  rezi : Conservative K
  xi : Vector K
  eta : Vector K
  area : K
  dt : K
  tx : K
  ty : K
  deriving DecidableEq, Repr

/-- A face between the cells `left` and `right`, with normal `(nx, ny)`. -/
structure Interface (K : Type) where
  left : Int
  right : Int
  nx : K
  ny : K
  length : K
  deriving DecidableEq, Repr

/-- The ways a call can end without a value. -/
inductive Fault where
  /-- The call `std::unordered_map::at` threw `std::out_of_range`. -/
  | outOfRange
  /-- Control reached the end of a value-returning function without a `return`. -/
  | noReturn
  deriving DecidableEq, Repr

/-- The container `std::unordered_map<int, Cell>`; iteration follows the list. -/
abbrev Cells (K : Type) := List (Int × Cell K)

/-- Read access `cells.at(k)`. -/
def cellAt {K : Type} (cells : Cells K) (k : Int) : Except Fault (Cell K) :=
  match cells.lookup k with
  | some c => .ok c
  | none => .error Fault.outOfRange

/-- Write access through `cells.at(k)`: the cell stored under `k` becomes `f` of it. -/
def cellModify {K : Type} (cells : Cells K) (k : Int) (f : Cell K → Cell K) : Cells K :=
  cells.map (fun e => if e.1 = k then (e.1, f e.2) else e)

/-! ## Scheme.cpp -/

namespace Scheme

variable {K : Type} [LinearOrderedField K]

/-- The value `res` that the first loop of `Scheme::updateCellDT` computes for one cell
(Scheme.cpp lines 20-30). -/
def cellDT (sqrt : K → K) (CFL : K) (cell : Cell K) : K :=
  let pv := Primitive.computePV sqrt cell.w
  let u_xi := |pv.u * cell.xi.ux + pv.v * cell.xi.uy|
  let u_eta := |pv.u * cell.eta.ux + pv.v * cell.eta.uy|
  let d_xi := (u_xi + pv.c) / cell.xi.length
  let d_eta := (u_eta + pv.c) / cell.eta.length
  CFL / (d_xi + d_eta)

/-- The first loop of `Scheme::updateCellDT` (Scheme.cpp lines 18-39) over the cells
not yet visited, from the current value of `globalDT`; it yields the visited cells and
the final `globalDT`. -/
def updateCellDTLoop (sqrt : K → K) (CFL : K) (useGlobalTimeStep : Bool) :
    Cells K → K → Cells K × K
  | [], globalDT => ([], globalDT)
  | (k, cell) :: rest, globalDT =>
    let res := cellDT sqrt CFL cell
    if useGlobalTimeStep then
      let out := updateCellDTLoop sqrt CFL useGlobalTimeStep rest (min globalDT res)
      ((k, cell) :: out.1, out.2)
    else
      let out := updateCellDTLoop sqrt CFL useGlobalTimeStep rest globalDT
      ((k, { cell with dt := res }) :: out.1, out.2)

/-- Function `Scheme::updateCellDT` (Scheme.cpp lines 11-47). -/
def updateCellDT (sqrt : K → K) (cells : Cells K) (CFL : K) (useGlobalTimeStep : Bool) :
    Cells K :=
  let out := updateCellDTLoop sqrt CFL useGlobalTimeStep cells 1e9
  if useGlobalTimeStep then
    out.1.map (fun e => (e.1, { e.2 with dt := out.2 }))
  else
    out.1

/-- Function `Scheme::bar` (Scheme.cpp lines 180-183). -/
def bar (sqrt : K → K) (rho_l rho_r vl vr : K) : K :=
  (sqrt rho_l * vl + sqrt rho_r * vr) / (sqrt rho_l + sqrt rho_r)

/-- Function `Scheme::flux` (Scheme.cpp lines 186-195). -/
def flux (face : Interface K) (w : Conservative K) (q p : K) : Conservative K :=
  { r1 := w.r1 * q
    r2 := w.r2 * q + p * face.nx
    r3 := w.r3 * q + p * face.ny
    r4 := (w.r4 + p) * q }

/-- Function `Scheme::fluxStar` (Scheme.cpp lines 198-208). -/
def fluxStar (face : Interface K) (w : Conservative K) (q S SM p p_star : K) :
    Conservative K :=
  { r1 := w.r1 * (S - q) + 0
    r2 := w.r2 * (S - q) + (p_star - p) * face.nx
    r3 := w.r3 * (S - q) + (p_star - p) * face.ny
    r4 := w.r4 * (S - q) + p_star * SM - p * q }

/-- Function `Scheme::HLL` (Scheme.cpp lines 50-85). The flag `error` is the value of
`Def::error` at the call; the result carries the value of `Def::error` at the return. -/
def HLL (sqrt : K → K) (error : Bool) (cells : Cells K) (face : Interface K) :
    Except Fault (Conservative K × Bool) := do
  let wl := (← cellAt cells face.left).w
  let wr := (← cellAt cells face.right).w
  let pvl := Primitive.computePV sqrt wl
  let pvr := Primitive.computePV sqrt wr
  let ql := pvl.u * face.nx + pvl.v * face.ny
  let qr := pvr.u * face.nx + pvr.v * face.ny
  let SL := min (ql - pvl.c) (qr - pvr.c)
  let SR := max (ql + pvl.c) (qr + pvr.c)
  let FL := flux face wl ql pvl.p
  let FR := flux face wr qr pvr.p
  if SL > 0 then
    pure (FL, error)
  else if SL ≤ 0 ∧ 0 ≤ SR then
    pure ((SR • FL - SL • FR + (SR * SL) • (wr - wl)).divs (SR - SL), error)
  else if SR < 0 then
    pure (FR, error)
  else
    pure (0, true)

/-- The wave speeds and the star pressure that `Scheme::HLLC` computes
(Scheme.cpp lines 139-159). -/
structure Waves (K : Type) where
  ql : K
  qr : K
  c_bar : K
  SL : K
  SR : K
  SM : K
  p_star : K
  deriving DecidableEq, Repr

/-- The locals of `Scheme::HLLC` up to `p_star` (Scheme.cpp lines 136-159). -/
def hllcWaves (sqrt : K → K) (face : Interface K) (wl wr : Conservative K) : Waves K :=
  let pvl := Primitive.computePV sqrt wl
  let pvr := Primitive.computePV sqrt wr
  let ql := pvl.u * face.nx + pvl.v * face.ny
  let qr := pvr.u * face.nx + pvr.v * face.ny
  let q_bar := bar sqrt pvl.rho pvr.rho ql qr
  let h_bar := bar sqrt pvl.rho pvr.rho pvl.h pvr.h
  let u_bar := bar sqrt pvl.rho pvr.rho pvl.u pvr.u
  let v_bar := bar sqrt pvl.rho pvr.rho pvl.v pvr.v
  let U_bar_sq := u_bar ^ 2 + v_bar ^ 2
  let c_bar := sqrt ((Def.KAPPA - 1) * (h_bar - 0.5 * U_bar_sq))
  let lambda_1 := ql - pvl.c
  let lambda_m := qr + pvr.c
  let lambda_1Roe := q_bar - c_bar
  let lambda_mRoe := q_bar + c_bar
  let SL := min lambda_1 lambda_1Roe
  let SR := max lambda_m lambda_mRoe
  let SM := (pvr.rho * qr * (SR - qr) - pvl.rho * ql * (SL - ql) + pvl.p - pvr.p) /
    (pvr.rho * (SR - qr) - pvl.rho * (SL - ql))
  let p_star := pvl.rho * (ql - SL) * (ql - SM) + pvl.p
  { ql := ql, qr := qr, c_bar := c_bar, SL := SL, SR := SR, SM := SM, p_star := p_star }

/-- Function `Scheme::HLLC` (Scheme.cpp lines 132-178); the last branch prints a message
and leaves the function without a `return`. -/
def HLLC (sqrt : K → K) (cells : Cells K) (face : Interface K) :
    Except Fault (Conservative K) := do
  let wl := (← cellAt cells face.left).w
  let wr := (← cellAt cells face.right).w
  let pvl := Primitive.computePV sqrt wl
  let pvr := Primitive.computePV sqrt wr
  let ws := hllcWaves sqrt face wl wr
  let wlStar := (1 / (ws.SL - ws.SM)) • fluxStar face wl ws.ql ws.SL ws.SM pvl.p ws.p_star
  let wrStar := (1 / (ws.SR - ws.SM)) • fluxStar face wr ws.qr ws.SR ws.SM pvr.p ws.p_star
  if ws.SL > 0 then
    pure (flux face wl ws.ql pvl.p)
  else if ws.SL ≤ 0 ∧ 0 < ws.SM then
    pure (flux face wlStar ws.SM ws.p_star)
  else if ws.SM ≤ 0 ∧ 0 ≤ ws.SR then
    pure (flux face wrStar ws.SM ws.p_star)
  else if ws.SR < 0 then
    pure (flux face wr ws.qr pvr.p)
  else
    throw Fault.noReturn

/-- The choice `Def::isHLLC ? HLLC(cells, face) : HLL(cells, face)` of
`Scheme::computeScheme` (Scheme.cpp lines 92-93), with the value of `Def::error` after
the call. -/
def faceFlux (sqrt : K → K) (isHLLC : Bool) (st : Cells K × Bool) (face : Interface K) :
    Except Fault (Conservative K × Bool) :=
  if isHLLC then (HLLC sqrt st.1 face).map (fun F => (F, st.2)) else HLL sqrt st.2 st.1 face

/-- The body of the loop of `Scheme::computeScheme` for one face
(Scheme.cpp lines 91-98). The switch `isHLLC` is `Def::isHLLC`, declared in `Def.h`;
the state is the cell container together with `Def::error`. -/
def computeSchemeFace (sqrt : K → K) (isHLLC : Bool) (st : Cells K × Bool)
    (face : Interface K) : Except Fault (Cells K × Bool) := do
  let fe ← faceFlux sqrt isHLLC st face
  let flux := fe.1
  let _ ← cellAt st.1 face.left
  let cells1 := cellModify st.1 face.left
    (fun c => { c with rezi := c.rezi - ((c.dt / c.area) • flux).muls face.length })
  let _ ← cellAt cells1 face.right
  let cells2 := cellModify cells1 face.right
    (fun c => { c with rezi := c.rezi + ((c.dt / c.area) • flux).muls face.length })
  pure (cells2, fe.2)

/-- Function `Scheme::computeScheme` (Scheme.cpp lines 87-100); the faces are visited
in the order of the list. -/
def computeScheme (sqrt : K → K) (isHLLC : Bool) (st : Cells K × Bool)
    (faces : List ((Int × Int) × Interface K)) : Except Fault (Cells K × Bool) :=
  faces.foldlM (fun s face => computeSchemeFace sqrt isHLLC s face.2) st

/-- The body of the loop of `Scheme::updateCells` for the ordinal `i`
(Scheme.cpp lines 118-120). -/
def updateCellsBody (g : Grid) (cells : Cells K) (i : Int) : Except Fault (Cells K) := do
  let k := Def.innerIndex g i
  let _ ← cellAt cells k
  let cells1 := cellModify cells k (fun c => { c with w := c.w + c.rezi })
  let _ ← cellAt cells1 k
  pure (cellModify cells1 k (fun c => { c with rezi := 0 }))

/-- Function `Scheme::updateCells` (Scheme.cpp lines 116-122): the loop runs over
`i = 0, ..., Def::inner - 1`. -/
def updateCells (g : Grid) (cells : Cells K) : Except Fault (Cells K) :=
  (List.range (Def.inner g).toNat).foldlM
    (fun cs (i : Nat) => updateCellsBody g cs (i : Int)) cells

end Scheme

/-! ## Concrete inputs -/

/-- A state at rest with density 1 and pressure 5/7, so that its speed of sound is 1. -/
def wOne {K : Type} [LinearOrderedField K] : Conservative K := ⟨1, 0, 0, 25 / 14⟩

/-- A unit-square cell holding `wOne`, with `dt = 1` and zero residual. -/
def cellOne {K : Type} [LinearOrderedField K] : Cell K :=
  ⟨wOne, 0, ⟨1, 0, 1⟩, ⟨0, 1, 1⟩, 1, 1, 0, 0⟩

/-- The cell `cellOne` with area 2 instead of 1. -/
def cellWide {K : Type} [LinearOrderedField K] : Cell K :=
  ⟨wOne, 0, ⟨1, 0, 1⟩, ⟨0, 1, 1⟩, 2, 1, 0, 0⟩

/-- The face between the cells 0 and 1, normal `(1, 0)`, length 1. -/
def faceOne {K : Type} [LinearOrderedField K] : Interface K := ⟨0, 1, 1, 0, 1⟩

/-- A cell holding `wOne` whose two edges have length `L`. -/
def cellOfLength {K : Type} [LinearOrderedField K] (L : K) : Cell K :=
  ⟨wOne, 0, ⟨1, 0, L⟩, ⟨0, 1, L⟩, L * L, 1, 0, 0⟩

/-- The grid of 2 x 1 inner cells with one ghost layer; its inner indices are 6 and 7. -/
def gridTwo : Grid := ⟨2, 1, 1⟩

/-- A unit cell holding `wOne` with the residual `(1, 2, 3, 4)`. -/
def cellResidual {K : Type} [LinearOrderedField K] : Cell K :=
  ⟨wOne, ⟨1, 2, 3, 4⟩, ⟨1, 0, 1⟩, ⟨0, 1, 1⟩, 1, 1, 0, 0⟩

/-- A container with the two inner cells of `gridTwo` and the ghost cell 0. -/
def meshTwo {K : Type} [LinearOrderedField K] : Cells K :=
  [(6, cellResidual), (7, cellResidual), (0, cellResidual)]

/-- A state at rest with density 2 and pressure 5/7. -/
def wDense {K : Type} [LinearOrderedField K] : Conservative K := ⟨2, 0, 0, 25 / 14⟩

/-! ## Bound.h and the remaining parts of Scheme.cpp -/

/-- The far-field reference state `Bound::p_infty`, `Bound::rho_infty`, `Bound::u_infty`
and `Bound::v_infty`; the constants are declared in `Bound.h` and read by
`Scheme::computeCP`. -/
structure Bound (K : Type) where
  p_infty : K
  rho_infty : K
  u_infty : K
  v_infty : K
  deriving DecidableEq, Repr

namespace Scheme

variable {K : Type} [LinearOrderedField K]

/-- Function `Scheme::computeCP` (Scheme.cpp lines 125-129). -/
def computeCP (bound : Bound K) (p_inner : K) : K :=
  (p_inner - bound.p_infty) /
    (0.5 * bound.rho_infty * bound.u_infty ^ 2 + bound.v_infty ^ 2)

end Scheme

/-- The pressure coefficient in the words of the spec, `(p − p∞)/(½ρ∞|U∞|²)` with
`|U∞|² = u∞² + v∞²`; it is compared with `Scheme.computeCP`. -/
def standardCP {K : Type} [LinearOrderedField K] (bound : Bound K) (p_inner : K) : K :=
  (p_inner - bound.p_infty) /
    (0.5 * bound.rho_infty * (bound.u_infty ^ 2 + bound.v_infty ^ 2))

/-- The case selection of HLL in the order of the spec: "if `S_L > 0` → `F_L`; if
`S_R < 0` → `F_R`; else the single-state HLL blend"; it is compared with the order of
the tests in `Scheme.HLL`. -/
def hllSelectSpec {K : Type} [LinearOrderedField K] (SL SR : K)
    (FL FR blend : Conservative K) : Conservative K :=
  if SL > 0 then FL else if SR < 0 then FR else blend

/-- A state with density -1 and pressure -5/7: not realizable, with `KAPPA * p / rho = 1`. -/
def wVoid {K : Type} [LinearOrderedField K] : Conservative K := ⟨-1, 0, 0, -(25 / 14)⟩

/-- A unit cell holding `wVoid`. -/
def cellVoid {K : Type} [LinearOrderedField K] : Cell K :=
  ⟨wVoid, 0, ⟨1, 0, 1⟩, ⟨0, 1, 1⟩, 1, 1, 0, 0⟩

/-- A unit cell holding the initial state `Def::wInitial`. -/
def cellInitial {K : Type} [LinearOrderedField K] : Cell K :=
  ⟨Def.wInitial, 0, ⟨1, 0, 1⟩, ⟨0, 1, 1⟩, 1, 1, 0, 0⟩

/-- A far field with `p_infty = 0`, `rho_infty = 1`, `u_infty = 0`, `v_infty = 1`. -/
def boundSide {K : Type} [LinearOrderedField K] : Bound K := ⟨0, 1, 0, 1⟩

namespace Scheme

variable {K : Type} [LinearOrderedField K]

/-- The local `wlStar` of `Scheme::HLLC` (Scheme.cpp lines 161-162). -/
def wlStar (sqrt : K → K) (face : Interface K) (wl wr : Conservative K) : Conservative K :=
  (1 / ((hllcWaves sqrt face wl wr).SL - (hllcWaves sqrt face wl wr).SM)) •
    fluxStar face wl (hllcWaves sqrt face wl wr).ql (hllcWaves sqrt face wl wr).SL
      (hllcWaves sqrt face wl wr).SM (Primitive.computePV sqrt wl).p
      (hllcWaves sqrt face wl wr).p_star

/-- The local `wrStar` of `Scheme::HLLC` (Scheme.cpp lines 163-164). -/
def wrStar (sqrt : K → K) (face : Interface K) (wl wr : Conservative K) : Conservative K :=
  (1 / ((hllcWaves sqrt face wl wr).SR - (hllcWaves sqrt face wl wr).SM)) •
    fluxStar face wr (hllcWaves sqrt face wl wr).qr (hllcWaves sqrt face wl wr).SR
      (hllcWaves sqrt face wl wr).SM (Primitive.computePV sqrt wr).p
      (hllcWaves sqrt face wl wr).p_star

end Scheme

namespace Scheme

variable {K : Type} [LinearOrderedField K]

/-- The local `SL` of `Scheme::HLL` (Scheme.cpp line 66). -/
def hllSL (sqrt : K → K) (face : Interface K) (wl wr : Conservative K) : K :=
  min ((Primitive.computePV sqrt wl).u * face.nx + (Primitive.computePV sqrt wl).v * face.ny
      - (Primitive.computePV sqrt wl).c)
    ((Primitive.computePV sqrt wr).u * face.nx + (Primitive.computePV sqrt wr).v * face.ny
      - (Primitive.computePV sqrt wr).c)

/-- The local `SR` of `Scheme::HLL` (Scheme.cpp line 67). -/
def hllSR (sqrt : K → K) (face : Interface K) (wl wr : Conservative K) : K :=
  max ((Primitive.computePV sqrt wl).u * face.nx + (Primitive.computePV sqrt wl).v * face.ny
      + (Primitive.computePV sqrt wl).c)
    ((Primitive.computePV sqrt wr).u * face.nx + (Primitive.computePV sqrt wr).v * face.ny
      + (Primitive.computePV sqrt wr).c)

/-- The physical normal flux of one side, as in the locals `FL` and `FR` of `Scheme::HLL`
(Scheme.cpp lines 69-70). -/
def physFlux (sqrt : K → K) (face : Interface K) (w : Conservative K) : Conservative K :=
  flux face w
    ((Primitive.computePV sqrt w).u * face.nx + (Primitive.computePV sqrt w).v * face.ny)
    (Primitive.computePV sqrt w).p

/-- The blend of `Scheme::HLL` (Scheme.cpp line 75). -/
def hllBlend (sqrt : K → K) (face : Interface K) (wl wr : Conservative K) : Conservative K :=
  (hllSR sqrt face wl wr • physFlux sqrt face wl - hllSL sqrt face wl wr • physFlux sqrt face wr
    + (hllSR sqrt face wl wr * hllSL sqrt face wl wr) • (wr - wl)).divs
    (hllSR sqrt face wl wr - hllSL sqrt face wl wr)

end Scheme

/-! ## Theorems -/

theorem innerIndex_eq (g : Grid) (i : Int) (hx : 1 ≤ g.xInner) (hi : 0 ≤ i) :
    Def.innerIndex g i
      = (g.gl + i / g.xInner) * (g.xInner + 2 * g.gl + 1) + g.gl + i % g.xInner := by
  unfold Def.innerIndex Def.firstInner Def.xCells
  rw [Int.tmod_eq_emod hi (by omega), Int.tdiv_eq_ediv hi (by omega)]
  ring

theorem innerIndex_inj (g : Grid) (hx : 1 ≤ g.xInner) (hg : 0 ≤ g.gl) (i j : Int)
    (hi0 : 0 ≤ i) (hj0 : 0 ≤ j) (hij : Def.innerIndex g i = Def.innerIndex g j) : i = j := by
  have hxpos : 0 < g.xInner := by omega
  rw [innerIndex_eq g i hx hi0, innerIndex_eq g j hx hj0] at hij
  have hi2 := Int.emod_nonneg i (show g.xInner ≠ 0 by omega)
  have hi3 := Int.emod_lt_of_pos i hxpos
  have hj2 := Int.emod_nonneg j (show g.xInner ≠ 0 by omega)
  have hj3 := Int.emod_lt_of_pos j hxpos
  have hi4 := Int.emod_add_ediv i g.xInner
  have hj4 := Int.emod_add_ediv j g.xInner
  have hq : i / g.xInner = j / g.xInner := by
    by_contra hne
    rcases lt_or_gt_of_ne hne with h | h
    · have h1 : i / g.xInner + 1 ≤ j / g.xInner := by omega
      nlinarith
    · have h1 : j / g.xInner + 1 ≤ i / g.xInner := by omega
      nlinarith
  rw [hq] at hij hi4
  have hr : i % g.xInner = j % g.xInner := by linarith
  rw [hr] at hi4
  linarith

/-- When the number of cells `Def::cells` fits an `int`, so does every intermediate value
of `innerIndex(i)` for `0 <= i < inner`: all of them lie between 0 and `Def::cells`, and
the arithmetic over `Int` is the arithmetic of the machine. -/
theorem innerIndex_in_range (g : Grid) (hx : 1 ≤ g.xInner) (hg : 0 ≤ g.gl) (i : Int)
    (hi0 : 0 ≤ i) (hi1 : i < Def.inner g) :
    0 ≤ Def.xCells g * g.gl ∧ Def.xCells g * g.gl ≤ Def.firstInner g ∧
    0 ≤ Int.tmod i g.xInner ∧ 0 ≤ Int.tdiv i g.xInner ∧
    Def.firstInner g + Int.tmod i g.xInner < Def.cells g ∧
    0 ≤ Int.tdiv i g.xInner * Def.xCells g ∧
    Int.tdiv i g.xInner * Def.xCells g < Def.cells g ∧
    Def.firstInner g + Int.tmod i g.xInner ≤ Def.innerIndex g i ∧
    Def.innerIndex g i < Def.cells g := by
  have hxpos : 0 < g.xInner := by omega
  have hmod := Int.tmod_eq_emod hi0 (show 0 ≤ g.xInner by omega)
  have hdiv := Int.tdiv_eq_ediv hi0 (show 0 ≤ g.xInner by omega)
  have h2 := Int.emod_nonneg i (show g.xInner ≠ 0 by omega)
  have h3 := Int.emod_lt_of_pos i hxpos
  have h4 : 0 ≤ i / g.xInner := Int.ediv_nonneg hi0 (by omega)
  have h5 : i / g.xInner < g.yInner := by
    apply Int.ediv_lt_of_lt_mul hxpos
    unfold Def.inner at hi1
    linarith [mul_comm g.xInner g.yInner]
  have hy : 1 ≤ g.yInner := by omega
  have h6 : i / g.xInner + 1 ≤ g.yInner := by omega
  unfold Def.innerIndex Def.cells Def.firstInner Def.yCells Def.xCells
  rw [hmod, hdiv]
  have hxc : 0 < g.xInner + 2 * g.gl + 1 := by omega
  have h7 : 0 ≤ (g.xInner + 2 * g.gl + 1) * g.gl := mul_nonneg hxc.le hg
  have h8 : 0 ≤ i / g.xInner * (g.xInner + 2 * g.gl + 1) := mul_nonneg h4 hxc.le
  have h9 : (i / g.xInner + 1) * (g.xInner + 2 * g.gl + 1)
      ≤ g.yInner * (g.xInner + 2 * g.gl + 1) := mul_le_mul_of_nonneg_right h6 hxc.le
  have h10 : 0 ≤ g.yInner * (g.xInner + 2 * g.gl + 1) := mul_nonneg (by omega) hxc.le
  have h11 : 0 ≤ g.gl * (g.xInner + 2 * g.gl + 1) := mul_nonneg hg hxc.le
  refine ⟨h7, by omega, h2, h4, ?_, h8, ?_, by omega, ?_⟩ <;> nlinarith

/-- C1: for a grid with `xInner >= 1`, `yInner >= 1`, `gl >= 0`, `innerIndex` maps the
ordinals `0 <= i < xInner*yInner` bijectively onto the set of non-ghost cell indices
`(gl + r)*xCells + gl + c` with `0 <= r < yInner`, `0 <= c < xInner`. -/
theorem innerIndex_bijOn (g : Grid) (hx : 1 ≤ g.xInner) (_hy : 1 ≤ g.yInner)
    (hg : 0 ≤ g.gl) :
    Set.BijOn (Def.innerIndex g) (innerOrdinals g) (nonGhostCells g) := by
  have hxpos : 0 < g.xInner := by omega
  refine ⟨?_, ?_, ?_⟩
  · intro i hi
    obtain ⟨hi0, hi1⟩ := hi
    refine ⟨i / g.xInner, i % g.xInner, Int.ediv_nonneg hi0 (by omega), ?_,
      Int.emod_nonneg _ (by omega), Int.emod_lt_of_pos _ hxpos, innerIndex_eq g i hx hi0⟩
    apply Int.ediv_lt_of_lt_mul hxpos
    unfold Def.inner at hi1
    linarith [mul_comm g.xInner g.yInner]
  · intro i hi j hj hij
    exact innerIndex_inj g hx hg i j hi.1 hj.1 hij
  · intro k hk
    obtain ⟨r, c, hr0, hr1, hc0, hc1, rfl⟩ := hk
    have hdiv : (c + g.xInner * r) / g.xInner = r := by
      rw [Int.add_mul_ediv_left _ _ (by omega : g.xInner ≠ 0), Int.ediv_eq_zero_of_lt hc0 hc1]
      simp
    have hmod : (c + g.xInner * r) % g.xInner = c := by
      rw [Int.add_mul_emod_self_left, Int.emod_eq_of_lt hc0 hc1]
    refine ⟨c + g.xInner * r, ⟨by positivity, ?_⟩, ?_⟩
    · unfold Def.inner
      nlinarith
    · rw [innerIndex_eq g _ hx (by positivity), hdiv, hmod]

/-- The grid of 3 x 2 inner cells with one ghost layer, for C1. -/
theorem innerIndex_bijOn_witness :
    Set.BijOn (Def.innerIndex ⟨3, 2, 1⟩) (innerOrdinals ⟨3, 2, 1⟩) (nonGhostCells ⟨3, 2, 1⟩) :=
  innerIndex_bijOn ⟨3, 2, 1⟩ (by decide) (by decide) (by decide)

/-! ### Component-wise arithmetic of `Conservative` -/

open Scheme Primitive

theorem Conservative.eq_iff {K : Type} (a b : Conservative K) :
    a = b ↔ a.r1 = b.r1 ∧ a.r2 = b.r2 ∧ a.r3 = b.r3 ∧ a.r4 = b.r4 := by
  cases a; cases b; simp

theorem Conservative.add_def {K : Type} [LinearOrderedField K] (a b : Conservative K) :
    a + b = ⟨a.r1 + b.r1, a.r2 + b.r2, a.r3 + b.r3, a.r4 + b.r4⟩ := rfl

theorem Conservative.sub_def {K : Type} [LinearOrderedField K] (a b : Conservative K) :
    a - b = ⟨a.r1 - b.r1, a.r2 - b.r2, a.r3 - b.r3, a.r4 - b.r4⟩ := rfl

theorem Conservative.smul_def {K : Type} [LinearOrderedField K] (s : K) (a : Conservative K) :
    s • a = ⟨s * a.r1, s * a.r2, s * a.r3, s * a.r4⟩ := rfl

theorem Conservative.zero_def {K : Type} [LinearOrderedField K] :
    (0 : Conservative K) = ⟨0, 0, 0, 0⟩ := rfl

/-! ### Flux consistency (C2, C3) -/

theorem KAPPA_pos : (0 : ℝ) < Def.KAPPA := by
  unfold Def.KAPPA
  norm_num

theorem computePV_c_pos (w : Conservative ℝ) (hrho : 0 < w.r1)
    (hp : 0 < (computePV Real.sqrt w).p) : 0 < (computePV Real.sqrt w).c := by
  have h : (computePV Real.sqrt w).c
      = Real.sqrt (Def.KAPPA * (computePV Real.sqrt w).p / w.r1) := rfl
  rw [h]
  apply Real.sqrt_pos.mpr
  have hk := KAPPA_pos
  positivity

theorem hll_blend_same (F w : Conservative ℝ) (SL SR : ℝ) (h : SR - SL ≠ 0) :
    (SR • F - SL • F + (SR * SL) • (w - w)).divs (SR - SL) = F := by
  rw [Conservative.eq_iff]
  simp only [Conservative.divs, Conservative.add_def, Conservative.sub_def,
    Conservative.smul_def]
  refine ⟨?_, ?_, ?_, ?_⟩ <;> · field_simp; ring

/-- C2: when the left and the right cell of a face hold the same state `w` with positive
density and pressure, `HLL` returns the physical flux `flux(face, w, q, p)` with
`q = u*nx + v*ny`, for every normal `(nx, ny)` and in each of its wave-speed cases; the
error flag is left as it was. -/
theorem HLL_consistency (error : Bool) (cells : Cells ℝ) (face : Interface ℝ)
    (cl cr : Cell ℝ) (w : Conservative ℝ)
    (hl : cellAt cells face.left = .ok cl) (hr : cellAt cells face.right = .ok cr)
    (hwl : cl.w = w) (hwr : cr.w = w)
    (hrho : 0 < w.r1) (hp : 0 < (computePV Real.sqrt w).p) :
    HLL Real.sqrt error cells face
      = .ok (flux face w ((computePV Real.sqrt w).u * face.nx
          + (computePV Real.sqrt w).v * face.ny) (computePV Real.sqrt w).p, error) := by
  have hc := computePV_c_pos w hrho hp
  unfold HLL
  simp only [hl, hr, hwl, hwr, bind, Except.bind, pure, Except.pure, min_self, max_self]
  split_ifs with h1 h2 h3
  · rfl
  · rw [hll_blend_same]
    linarith
  · rfl
  · exfalso
    push_neg at h1 h3
    exact h2 ⟨h1, h3⟩

/-- Two cells at rest with speed of sound 1 across the face `faceOne`: the blend case
of `HLL`, for C2. -/
theorem HLL_consistency_witness :
    HLL Real.sqrt false [(0, cellOne), (1, cellOne)] faceOne
      = .ok (flux faceOne wOne ((computePV Real.sqrt wOne).u * faceOne.nx
          + (computePV Real.sqrt wOne).v * faceOne.ny) (computePV Real.sqrt wOne).p, false) :=
  HLL_consistency false [(0, cellOne), (1, cellOne)] faceOne cellOne cellOne wOne
    rfl rfl rfl rfl (by norm_num [wOne]) (by norm_num [computePV, wOne, Def.KAPPA])

theorem bar_same (rho a : ℝ) (hrho : 0 < rho) : bar Real.sqrt rho rho a a = a := by
  have h : 0 < Real.sqrt rho := Real.sqrt_pos.mpr hrho
  unfold bar
  field_simp
  ring

theorem roe_radicand_same (w : Conservative ℝ) (hrho : 0 < w.r1) :
    (Def.KAPPA - 1) * ((computePV Real.sqrt w).h
        - 0.5 * ((computePV Real.sqrt w).u ^ 2 + (computePV Real.sqrt w).v ^ 2))
      = Def.KAPPA * (computePV Real.sqrt w).p / w.r1 := by
  have h : w.r1 ≠ 0 := ne_of_gt hrho
  simp only [computePV, Def.KAPPA]
  field_simp
  ring

theorem hllcWaves_same (face : Interface ℝ) (w : Conservative ℝ)
    (hrho : 0 < w.r1) (hp : 0 < (computePV Real.sqrt w).p) :
    hllcWaves Real.sqrt face w w
      = { ql := (computePV Real.sqrt w).u * face.nx + (computePV Real.sqrt w).v * face.ny
          qr := (computePV Real.sqrt w).u * face.nx + (computePV Real.sqrt w).v * face.ny
          c_bar := (computePV Real.sqrt w).c
          SL := (computePV Real.sqrt w).u * face.nx + (computePV Real.sqrt w).v * face.ny
            - (computePV Real.sqrt w).c
          SR := (computePV Real.sqrt w).u * face.nx + (computePV Real.sqrt w).v * face.ny
            + (computePV Real.sqrt w).c
          SM := (computePV Real.sqrt w).u * face.nx + (computePV Real.sqrt w).v * face.ny
          p_star := (computePV Real.sqrt w).p } := by
  have hc := computePV_c_pos w hrho hp
  have hr : (computePV Real.sqrt w).rho = w.r1 := rfl
  have hcb : Real.sqrt ((Def.KAPPA - 1) * ((computePV Real.sqrt w).h
        - 0.5 * ((computePV Real.sqrt w).u ^ 2 + (computePV Real.sqrt w).v ^ 2)))
      = (computePV Real.sqrt w).c := by
    rw [roe_radicand_same w hrho]
    rfl
  unfold hllcWaves
  simp only [hr, bar_same _ _ hrho, hcb, min_self, max_self]
  generalize (computePV Real.sqrt w).c = c at hc
  generalize (computePV Real.sqrt w).u * face.nx + (computePV Real.sqrt w).v * face.ny = q
  generalize (computePV Real.sqrt w).p = p
  have hd : w.r1 * (q + c - q) - w.r1 * (q - c - q) ≠ 0 := by
    have h2 : w.r1 * (q + c - q) - w.r1 * (q - c - q) = 2 * (w.r1 * c) := by ring
    rw [h2]
    positivity
  have hSM : (w.r1 * q * (q + c - q) - w.r1 * q * (q - c - q) + p - p) /
      (w.r1 * (q + c - q) - w.r1 * (q - c - q)) = q := by
    field_simp
    ring
  rw [hSM]
  congr 1
  ring

theorem fluxStar_same (face : Interface ℝ) (w : Conservative ℝ) (q S p : ℝ)
    (h : S - q ≠ 0) : (1 / (S - q)) • fluxStar face w q S q p p = w := by
  rw [Conservative.eq_iff]
  simp only [Conservative.smul_def, fluxStar]
  refine ⟨?_, ?_, ?_, ?_⟩ <;> · field_simp; try ring

/-- C3: when the left and the right cell of a face hold the same state `w` with positive
density and pressure, `HLLC` returns the physical flux `flux(face, w, q, p)` with
`q = u*nx + v*ny`, whichever of its four wave-speed cases is selected. No condition on
the normal is used, so the statement covers every unit normal. -/
theorem HLLC_consistency (cells : Cells ℝ) (face : Interface ℝ)
    (cl cr : Cell ℝ) (w : Conservative ℝ)
    (hl : cellAt cells face.left = .ok cl) (hr : cellAt cells face.right = .ok cr)
    (hwl : cl.w = w) (hwr : cr.w = w)
    (hrho : 0 < w.r1) (hp : 0 < (computePV Real.sqrt w).p) :
    HLLC Real.sqrt cells face
      = .ok (flux face w ((computePV Real.sqrt w).u * face.nx
          + (computePV Real.sqrt w).v * face.ny) (computePV Real.sqrt w).p) := by
  have hc := computePV_c_pos w hrho hp
  unfold HLLC
  simp only [hl, hr, hwl, hwr, bind, Except.bind, pure, Except.pure,
    hllcWaves_same face w hrho hp]
  generalize (computePV Real.sqrt w).c = c at hc
  generalize (computePV Real.sqrt w).u * face.nx + (computePV Real.sqrt w).v * face.ny = q
  generalize (computePV Real.sqrt w).p = p
  rw [fluxStar_same face w q (q - c) p (by linarith),
    fluxStar_same face w q (q + c) p (by linarith)]
  split_ifs with h1 h2 h3 h4
  · rfl
  · rfl
  · rfl
  · rfl
  · exfalso
    push_neg at h1 h2 h3 h4
    have h5 := h2 h1
    have h6 := h3 h5
    linarith

/-- Two cells at rest with speed of sound 1 across the face `faceOne`: the right star
case of `HLLC`, for C3. -/
theorem HLLC_consistency_witness :
    HLLC Real.sqrt [(0, cellOne), (1, cellOne)] faceOne
      = .ok (flux faceOne wOne ((computePV Real.sqrt wOne).u * faceOne.nx
          + (computePV Real.sqrt wOne).v * faceOne.ny) (computePV Real.sqrt wOne).p) :=
  HLLC_consistency [(0, cellOne), (1, cellOne)] faceOne cellOne cellOne wOne
    rfl rfl rfl rfl (by norm_num [wOne]) (by norm_num [computePV, wOne, Def.KAPPA])

/-! ### Container lemmas -/

theorem lookup_cellModify {K : Type} (cells : Cells K) (k j : Int) (f : Cell K → Cell K) :
    (cellModify cells k f).lookup j
      = if j = k then (cells.lookup k).map f else cells.lookup j := by
  induction cells with
  | nil => simp [cellModify]
  | cons e rest ih =>
    obtain ⟨a, c⟩ := e
    simp only [cellModify, List.map_cons] at ih ⊢
    by_cases hak : a = k
    · subst hak
      by_cases hja : j = a
      · subst hja
        simp [List.lookup_cons]
      · have h1 : (j == a) = false := by simpa using hja
        simp only [if_true, List.lookup_cons, h1, hja, if_false]
        simpa [hja] using ih
    · by_cases hja : j = a
      · subst hja
        simp [List.lookup_cons, hak]
      · have h1 : (j == a) = false := by simpa using hja
        simp only [hak, if_false, List.lookup_cons, h1]
        rw [ih]
        by_cases hjk : j = k
        · subst hjk
          have h2 : (j == a) = false := by simpa using hja
          simp [h2]
        · simp [hjk]

theorem cellAt_cellModify {K : Type} (cells : Cells K) (k j : Int) (f : Cell K → Cell K) :
    cellAt (cellModify cells k f) j
      = if j = k then (cellAt cells k).map f else cellAt cells j := by
  unfold cellAt
  rw [lookup_cellModify]
  by_cases h : j = k
  · simp only [h, if_true]
    cases cells.lookup k <;> rfl
  · simp only [h, if_false]

/-! ### Every call of a solver returns (exact arithmetic) -/

theorem HLL_returns {K : Type} [LinearOrderedField K] (sqrt : K → K) (error : Bool)
    (cells : Cells K) (face : Interface K) (cl cr : Cell K)
    (hl : cellAt cells face.left = .ok cl) (hr : cellAt cells face.right = .ok cr) :
    ∃ F, HLL sqrt error cells face = .ok (F, error) := by
  unfold HLL
  simp only [hl, hr, bind, Except.bind, pure, Except.pure]
  split_ifs with h1 h2 h3
  · exact ⟨_, rfl⟩
  · exact ⟨_, rfl⟩
  · exact ⟨_, rfl⟩
  · exfalso
    push_neg at h1 h3
    by_cases h4 : 0 ≤ max
        ((computePV sqrt cl.w).u * face.nx + (computePV sqrt cl.w).v * face.ny
          + (computePV sqrt cl.w).c)
        ((computePV sqrt cr.w).u * face.nx + (computePV sqrt cr.w).v * face.ny
          + (computePV sqrt cr.w).c)
    · exact h2 ⟨h1, h4⟩
    · exact h4 h3

theorem HLLC_returns {K : Type} [LinearOrderedField K] (sqrt : K → K)
    (cells : Cells K) (face : Interface K) (cl cr : Cell K)
    (hl : cellAt cells face.left = .ok cl) (hr : cellAt cells face.right = .ok cr) :
    ∃ F, HLLC sqrt cells face = .ok F := by
  unfold HLLC
  simp only [hl, hr, bind, Except.bind, pure, Except.pure]
  split_ifs with h1 h2 h3 h4
  · exact ⟨_, rfl⟩
  · exact ⟨_, rfl⟩
  · exact ⟨_, rfl⟩
  · exact ⟨_, rfl⟩
  · exfalso
    push_neg at h1 h2 h3 h4
    exact absurd (h3 (h2 h1)) (not_lt.mpr h4)

theorem computeSchemeFace_eq {K : Type} [LinearOrderedField K] (sqrt : K → K)
    (isHLLC : Bool) (st : Cells K × Bool) (face : Interface K) (cl cr : Cell K)
    (hl : cellAt st.1 face.left = .ok cl) (hr : cellAt st.1 face.right = .ok cr) :
    ∃ F, faceFlux sqrt isHLLC st face = .ok (F, st.2) ∧
      computeSchemeFace sqrt isHLLC st face
        = .ok (cellModify
            (cellModify st.1 face.left
              (fun c => { c with rezi := c.rezi - ((c.dt / c.area) • F).muls face.length }))
            face.right
              (fun c => { c with rezi := c.rezi + ((c.dt / c.area) • F).muls face.length }),
            st.2) := by
  have hr1 : ∀ f, ∃ c, cellAt (cellModify st.1 face.left f) face.right = .ok c := by
    intro f
    rw [cellAt_cellModify]
    by_cases h : face.right = face.left
    · rw [if_pos h, hl]
      exact ⟨_, rfl⟩
    · rw [if_neg h, hr]
      exact ⟨_, rfl⟩
  have hFF : ∃ F, faceFlux sqrt isHLLC st face = .ok (F, st.2) := by
    cases isHLLC with
    | true =>
      obtain ⟨F, hF⟩ := HLLC_returns sqrt st.1 face cl cr hl hr
      exact ⟨F, by simp [faceFlux, hF, Except.map]⟩
    | false =>
      obtain ⟨F, hF⟩ := HLL_returns sqrt st.2 st.1 face cl cr hl hr
      exact ⟨F, by simp [faceFlux, hF]⟩
  obtain ⟨F, hF⟩ := hFF
  refine ⟨F, hF, ?_⟩
  obtain ⟨c, hc⟩ := hr1
    (fun c => { c with rezi := c.rezi - ((c.dt / c.area) • F).muls face.length })
  unfold computeSchemeFace
  simp only [hF, hl, hc, bind, Except.bind, pure, Except.pure]

/-! ### Residual contributions of one face (C4) -/

theorem computePV_wOne :
    computePV Real.sqrt (wOne : Conservative ℝ) = ⟨1, 0, 0, 5 / 7, 1, 5 / 2, 0⟩ := by
  have h1 : Real.sqrt (Def.KAPPA * ((Def.KAPPA - 1) * (25 / 14 - 0.5 * 1 * ((0 / 1 : ℝ) ^ 2 + (0 / 1) ^ 2))) / 1) = 1 := by
    rw [show (Def.KAPPA * ((Def.KAPPA - 1) * (25 / 14 - 0.5 * 1 * ((0 / 1 : ℝ) ^ 2 + (0 / 1) ^ 2))) / 1) = 1 by
      unfold Def.KAPPA; norm_num]
    exact Real.sqrt_one
  simp only [computePV, wOne, h1]
  norm_num [Def.KAPPA]

theorem HLL_cellOne_cellWide :
    HLL Real.sqrt false [(0, cellOne), (1, cellWide)] faceOne
      = .ok (⟨0, 5 / 7, 0, 0⟩, false) := by
  have hl : cellAt [(0, (cellOne : Cell ℝ)), (1, cellWide)] (faceOne : Interface ℝ).left = .ok cellOne := rfl
  have hr : cellAt [(0, (cellOne : Cell ℝ)), (1, cellWide)] (faceOne : Interface ℝ).right = .ok cellWide := rfl
  unfold HLL
  simp only [hl, hr, bind, Except.bind, pure, Except.pure]
  have h1 : (cellOne : Cell ℝ).w = wOne := rfl
  have h2 : (cellWide : Cell ℝ).w = wOne := rfl
  simp only [h1, h2, computePV_wOne, min_self, max_self, faceOne]
  norm_num [flux, Conservative.divs, Conservative.add_def, Conservative.sub_def, Conservative.smul_def, wOne]

theorem Conservative.zero_r1 {K : Type} [LinearOrderedField K] :
    (0 : Conservative K).r1 = 0 := rfl

theorem Conservative.zero_r2 {K : Type} [LinearOrderedField K] :
    (0 : Conservative K).r2 = 0 := rfl

theorem Conservative.zero_r3 {K : Type} [LinearOrderedField K] :
    (0 : Conservative K).r3 = 0 := rfl

theorem Conservative.zero_r4 {K : Type} [LinearOrderedField K] :
    (0 : Conservative K).r4 = 0 := rfl

theorem computeSchemeFace_cellOne_cellWide :
    computeSchemeFace Real.sqrt false ([(0, cellOne), (1, cellWide)], false) faceOne
      = .ok ([(0, { (cellOne : Cell ℝ) with rezi := ⟨0, -(5 / 7), 0, 0⟩ }),
              (1, { (cellWide : Cell ℝ) with rezi := ⟨0, 5 / 14, 0, 0⟩ })], false) := by
  have hl : cellAt [(0, (cellOne : Cell ℝ)), (1, cellWide)] (faceOne : Interface ℝ).left
      = .ok cellOne := rfl
  have hr : cellAt [(0, (cellOne : Cell ℝ)), (1, cellWide)] (faceOne : Interface ℝ).right
      = .ok cellWide := rfl
  obtain ⟨F, hF, h⟩ := computeSchemeFace_eq Real.sqrt false
    ([(0, cellOne), (1, cellWide)], false) faceOne cellOne cellWide hl hr
  have hF2 : F = ⟨0, 5 / 7, 0, 0⟩ := by
    have h3 := hF
    simp only [faceFlux, Bool.false_eq_true, if_false, HLL_cellOne_cellWide] at h3
    injection h3 with h4
    injection h4 with h5
    exact h5.symm
  rw [h, hF2]
  simp only [cellModify, faceOne, List.map_cons, List.map_nil]
  norm_num [cellOne, cellWide, Conservative.muls, Conservative.add_def, Conservative.sub_def,
    Conservative.smul_def, Conservative.zero_r1, Conservative.zero_r2, Conservative.zero_r3,
    Conservative.zero_r4]

/-- C4, counterexample: across `faceOne` with the HLL flux, the left cell (area 1, dt 1)
receives the contribution `(0, -5/7, 0, 0)` and the right cell (area 2, dt 1) receives
`(0, 5/14, 0, 0)`; their sum is not the zero state. -/
theorem computeSchemeFace_not_antisymmetric :
    computeSchemeFace Real.sqrt false ([(0, cellOne), (1, cellWide)], false) faceOne
      = .ok ([(0, { (cellOne : Cell ℝ) with rezi := ⟨0, -(5 / 7), 0, 0⟩ }),
              (1, { (cellWide : Cell ℝ) with rezi := ⟨0, 5 / 14, 0, 0⟩ })], false)
    ∧ ((⟨0, -(5 / 7), 0, 0⟩ : Conservative ℝ) - (cellOne : Cell ℝ).rezi)
        + ((⟨0, 5 / 14, 0, 0⟩ : Conservative ℝ) - (cellWide : Cell ℝ).rezi)
      ≠ (0 : Conservative ℝ) := by
  refine ⟨computeSchemeFace_cellOne_cellWide, ?_⟩
  rw [Ne, Conservative.eq_iff]
  norm_num [cellOne, cellWide, Conservative.add_def, Conservative.sub_def,
    Conservative.zero_r1, Conservative.zero_r2, Conservative.zero_r3, Conservative.zero_r4]

/-- C4, amended: for a face whose left and right cells are distinct and present,
`computeSchemeFace` returns; the left residual becomes `rezi - (dt/area) * flux * length`
with the left cell's `dt` and `area`, the right residual becomes
`rezi + (dt/area) * flux * length` with the right cell's, `flux` being the flux chosen
by `Def::isHLLC`; and when the two cells have the same ratio `dt/area`, the two
contributions sum to the zero state. -/
theorem computeSchemeFace_antisymmetric {K : Type} [LinearOrderedField K] (sqrt : K → K)
    (isHLLC : Bool) (st : Cells K × Bool) (face : Interface K) (cl cr : Cell K)
    (hl : cellAt st.1 face.left = .ok cl) (hr : cellAt st.1 face.right = .ok cr)
    (hne : face.left ≠ face.right) (hratio : cl.dt / cl.area = cr.dt / cr.area) :
    ∃ F st' l' r', faceFlux sqrt isHLLC st face = .ok (F, st.2) ∧
      computeSchemeFace sqrt isHLLC st face = .ok st' ∧
      cellAt st'.1 face.left = .ok l' ∧ cellAt st'.1 face.right = .ok r' ∧
      l'.rezi = cl.rezi - ((cl.dt / cl.area) • F).muls face.length ∧
      r'.rezi = cr.rezi + ((cr.dt / cr.area) • F).muls face.length ∧
      (l'.rezi - cl.rezi) + (r'.rezi - cr.rezi) = 0 := by
  obtain ⟨F, hF, h⟩ := computeSchemeFace_eq sqrt isHLLC st face cl cr hl hr
  refine ⟨F, _, { cl with rezi := cl.rezi - ((cl.dt / cl.area) • F).muls face.length },
    { cr with rezi := cr.rezi + ((cr.dt / cr.area) • F).muls face.length }, hF, h, ?_, ?_,
    rfl, rfl, ?_⟩
  · simp only [cellAt_cellModify, if_neg hne, if_true, hl]
    rfl
  · simp only [cellAt_cellModify, if_neg (Ne.symm hne), if_true, hr]
    rfl
  · rw [Conservative.eq_iff]
    simp only [Conservative.muls, Conservative.add_def, Conservative.sub_def,
      Conservative.smul_def, Conservative.zero_def, hratio]
    refine ⟨?_, ?_, ?_, ?_⟩ <;> ring

/-- Two equal unit cells across `faceOne` with the HLL flux, for C4. -/
theorem computeSchemeFace_antisymmetric_witness :
    ∃ F st' l' r', faceFlux Real.sqrt false ([(0, cellOne), (1, cellOne)], false) faceOne
        = .ok (F, false) ∧
      computeSchemeFace Real.sqrt false ([(0, cellOne), (1, cellOne)], false) faceOne
        = .ok st' ∧
      cellAt st'.1 0 = .ok l' ∧ cellAt st'.1 1 = .ok r' ∧
      l'.rezi = (cellOne : Cell ℝ).rezi - (((1 : ℝ) / 1) • F).muls 1 ∧
      r'.rezi = (cellOne : Cell ℝ).rezi + (((1 : ℝ) / 1) • F).muls 1 ∧
      (l'.rezi - (cellOne : Cell ℝ).rezi) + (r'.rezi - (cellOne : Cell ℝ).rezi) = 0 :=
  computeSchemeFace_antisymmetric Real.sqrt false ([(0, cellOne), (1, cellOne)], false)
    faceOne cellOne cellOne rfl rfl (by decide) rfl

/-! ### Time step (C6, C7) -/

theorem updateCellDTLoop_local {K : Type} [LinearOrderedField K] (sqrt : K → K) (CFL : K)
    (cells : Cells K) (globalDT : K) :
    updateCellDTLoop sqrt CFL false cells globalDT
      = (cells.map (fun e => (e.1, { e.2 with dt := cellDT sqrt CFL e.2 })), globalDT) := by
  induction cells generalizing globalDT with
  | nil => rfl
  | cons e rest ih =>
    obtain ⟨k, c⟩ := e
    simp [updateCellDTLoop, ih]

theorem updateCellDTLoop_global {K : Type} [LinearOrderedField K] (sqrt : K → K) (CFL : K)
    (cells : Cells K) (globalDT : K) :
    updateCellDTLoop sqrt CFL true cells globalDT
      = (cells, (cells.map (fun e => cellDT sqrt CFL e.2)).foldl min globalDT) := by
  induction cells generalizing globalDT with
  | nil => rfl
  | cons e rest ih =>
    obtain ⟨k, c⟩ := e
    simp [updateCellDTLoop, ih]

theorem updateCellDT_global {K : Type} [LinearOrderedField K] (sqrt : K → K) (CFL : K)
    (cells : Cells K) :
    updateCellDT sqrt cells CFL true
      = cells.map (fun e => (e.1, { e.2 with
          dt := (cells.map (fun e => cellDT sqrt CFL e.2)).foldl min 1e9 })) := by
  simp [updateCellDT, updateCellDTLoop_global]

theorem updateCellDT_local {K : Type} [LinearOrderedField K] (sqrt : K → K) (CFL : K)
    (cells : Cells K) :
    updateCellDT sqrt cells CFL false
      = cells.map (fun e => (e.1, { e.2 with dt := cellDT sqrt CFL e.2 })) := by
  simp [updateCellDT, updateCellDTLoop_local]

theorem foldl_min_le_init {K : Type} [LinearOrderedField K] (l : List K) (a : K) :
    l.foldl min a ≤ a := by
  induction l generalizing a with
  | nil => exact le_refl _
  | cons x xs ih => exact le_trans (ih (min a x)) (min_le_left _ _)

theorem foldl_min_le_mem {K : Type} [LinearOrderedField K] (l : List K) (a x : K)
    (hx : x ∈ l) : l.foldl min a ≤ x := by
  induction l generalizing a with
  | nil => cases hx
  | cons y ys ih =>
    rcases List.mem_cons.mp hx with h | h
    · subst h
      exact le_trans (foldl_min_le_init ys (min a x)) (min_le_right _ _)
    · exact ih (min a y) h

theorem foldl_min_mem {K : Type} [LinearOrderedField K] (l : List K) (a : K) :
    l.foldl min a = a ∨ l.foldl min a ∈ l := by
  induction l generalizing a with
  | nil => exact Or.inl rfl
  | cons y ys ih =>
    rcases ih (min a y) with h | h
    · rcases min_choice a y with h2 | h2
      · left
        rw [List.foldl_cons, h, h2]
      · right
        rw [List.foldl_cons, h, h2]
        exact List.mem_cons_self _ _
    · right
      exact List.mem_cons_of_mem _ h

/-- In global mode every cell receives the same `dt`, and when the step of some cell is at
most `1e9` that value is the minimum of the steps of all cells. -/
theorem updateCellDT_global_min {K : Type} [LinearOrderedField K] (sqrt : K → K) (CFL : K)
    (cells : Cells K) (hsmall : ∃ e ∈ cells, cellDT sqrt CFL e.2 ≤ 1e9) :
    ∃ m, (∃ e ∈ cells, cellDT sqrt CFL e.2 = m) ∧ (∀ e ∈ cells, m ≤ cellDT sqrt CFL e.2) ∧
      updateCellDT sqrt cells CFL true = cells.map (fun e => (e.1, { e.2 with dt := m })) := by
  refine ⟨_, ?_, ?_, updateCellDT_global sqrt CFL cells⟩
  · rcases foldl_min_mem (cells.map (fun e => cellDT sqrt CFL e.2)) (1e9 : K) with h | h
    · obtain ⟨e, he, hle⟩ := hsmall
      refine ⟨e, he, le_antisymm ?_ ?_⟩
      · rw [h]
        exact hle
      · exact foldl_min_le_mem _ _ _ (List.mem_map.mpr ⟨e, he, rfl⟩)
    · obtain ⟨e, he, h2⟩ := List.mem_map.mp h
      exact ⟨e, he, h2⟩
  · intro e he
    exact foldl_min_le_mem _ _ _ (List.mem_map.mpr ⟨e, he, rfl⟩)


theorem cellDT_cellOfLength (CFL L : ℝ) (hL : L ≠ 0) :
    cellDT Real.sqrt CFL (cellOfLength L) = CFL * L / 2 := by
  have h : (cellOfLength L : Cell ℝ).w = wOne := rfl
  simp only [cellDT, h, computePV_wOne, cellOfLength]
  norm_num
  field_simp
  left
  norm_num

/-- C6, the code at the failing input: a one-cell mesh whose own CFL-limited step is
`2e9` (edges of length `4e9`, speed of sound 1, CFL 1) is given `dt = 1e9`, the initial
value of `globalDT`, instead of the minimum `2e9` of the per-cell steps. -/
theorem updateCellDT_global_capped :
    cellDT Real.sqrt 1 (cellOfLength 4e9 : Cell ℝ) = 2e9 ∧
    updateCellDT Real.sqrt [(0, cellOfLength 4e9)] 1 true
      = [(0, { (cellOfLength 4e9 : Cell ℝ) with dt := 1e9 })] := by
  have h1 : cellDT Real.sqrt 1 (cellOfLength 4e9 : Cell ℝ) = 2e9 := by
    rw [cellDT_cellOfLength 1 4e9 (by norm_num)]
    norm_num
  refine ⟨h1, ?_⟩
  rw [updateCellDT_global]
  simp only [List.map_cons, List.map_nil, List.foldl_cons, List.foldl_nil, h1]
  norm_num

/-- The scenario of the spec: per-cell steps 0.1, 0.05 and 0.2; global mode gives every
cell 0.05. -/
theorem updateCellDT_global_scenario :
    cellDT Real.sqrt 1 (cellOfLength 0.2 : Cell ℝ) = 0.1 ∧
    cellDT Real.sqrt 1 (cellOfLength 0.1 : Cell ℝ) = 0.05 ∧
    cellDT Real.sqrt 1 (cellOfLength 0.4 : Cell ℝ) = 0.2 ∧
    updateCellDT Real.sqrt
        [(0, cellOfLength 0.2), (1, cellOfLength 0.1), (2, cellOfLength 0.4)] 1 true
      = [(0, { (cellOfLength 0.2 : Cell ℝ) with dt := 0.05 }),
         (1, { (cellOfLength 0.1 : Cell ℝ) with dt := 0.05 }),
         (2, { (cellOfLength 0.4 : Cell ℝ) with dt := 0.05 })] := by
  have h1 : cellDT Real.sqrt 1 (cellOfLength 0.2 : Cell ℝ) = 0.1 := by
    rw [cellDT_cellOfLength 1 0.2 (by norm_num)]
    norm_num
  have h2 : cellDT Real.sqrt 1 (cellOfLength 0.1 : Cell ℝ) = 0.05 := by
    rw [cellDT_cellOfLength 1 0.1 (by norm_num)]
    norm_num
  have h3 : cellDT Real.sqrt 1 (cellOfLength 0.4 : Cell ℝ) = 0.2 := by
    rw [cellDT_cellOfLength 1 0.4 (by norm_num)]
    norm_num
  refine ⟨h1, h2, h3, ?_⟩
  rw [updateCellDT_global]
  simp only [List.map_cons, List.map_nil, List.foldl_cons, List.foldl_nil, h1, h2, h3]
  norm_num

/-- C7: in local mode `updateCellDT` gives every cell the step `CFL/(d_xi + d_eta)`
computed from that cell alone, `d_xi = (|u*xi.ux + v*xi.uy| + c)/xi.length` and
`d_eta = (|u*eta.ux + v*eta.uy| + c)/eta.length`; and in both modes the keys, their order
and every field of every cell other than `dt` are unchanged. -/
theorem updateCellDT_local_frame {K : Type} [LinearOrderedField K] (sqrt : K → K)
    (cells : Cells K) (CFL : K) :
    updateCellDT sqrt cells CFL false
        = cells.map (fun e => (e.1, { e.2 with dt :=
            CFL / ((|(computePV sqrt e.2.w).u * e.2.xi.ux
                      + (computePV sqrt e.2.w).v * e.2.xi.uy|
                    + (computePV sqrt e.2.w).c) / e.2.xi.length
                + (|(computePV sqrt e.2.w).u * e.2.eta.ux
                      + (computePV sqrt e.2.w).v * e.2.eta.uy|
                    + (computePV sqrt e.2.w).c) / e.2.eta.length) }))
    ∧ ∀ useGlobalTimeStep : Bool,
      (updateCellDT sqrt cells CFL useGlobalTimeStep).map
          (fun e => (e.1, { e.2 with dt := 0 }))
        = cells.map (fun e => (e.1, { e.2 with dt := 0 })) := by
  constructor
  · rw [updateCellDT_local]
    rfl
  · intro b
    cases b with
    | true =>
      rw [updateCellDT_global, List.map_map]
      rfl
    | false =>
      rw [updateCellDT_local, List.map_map]
      rfl

/-! ### The update of the interior cells (C8, C9) -/

theorem Conservative.add_zero_right {K : Type} [LinearOrderedField K] (a : Conservative K) :
    a + 0 = a := by
  rw [Conservative.eq_iff]
  simp [Conservative.add_def, Conservative.zero_r1, Conservative.zero_r2,
    Conservative.zero_r3, Conservative.zero_r4]

theorem Except_map_map {ε α β γ : Type} (x : Except ε α) (f : α → β) (g : β → γ) :
    (x.map f).map g = x.map (fun a => g (f a)) := by
  cases x <;> rfl

theorem updateCellsBody_eq {K : Type} [LinearOrderedField K] (g : Grid) (cells : Cells K)
    (i : Int) (c : Cell K) (h : cellAt cells (Def.innerIndex g i) = .ok c) :
    updateCellsBody g cells i
      = .ok (cellModify (cellModify cells (Def.innerIndex g i)
          (fun c => { c with w := c.w + c.rezi })) (Def.innerIndex g i)
          (fun c => { c with rezi := 0 })) := by
  have h2 : cellAt (cellModify cells (Def.innerIndex g i)
      (fun c => { c with w := c.w + c.rezi })) (Def.innerIndex g i)
      = .ok { c with w := c.w + c.rezi } := by
    rw [cellAt_cellModify, if_pos rfl, h]
    rfl
  unfold updateCellsBody
  simp only [h, h2, bind, Except.bind, pure, Except.pure]

theorem updateCells_loop {K : Type} [LinearOrderedField K] (g : Grid) (ords : List Nat)
    (cells : Cells K)
    (hpres : ∀ i ∈ ords, ∃ c, cellAt cells (Def.innerIndex g (i : Int)) = .ok c) :
    ∃ cells', ords.foldlM (fun cs (i : Nat) => updateCellsBody g cs (i : Int)) cells
        = .ok cells' ∧
      (∀ k, (∃ i ∈ ords, Def.innerIndex g (i : Int) = k) →
        cellAt cells' k
          = (cellAt cells k).map (fun c => { c with w := c.w + c.rezi, rezi := 0 })) ∧
      (∀ k, (¬ ∃ i ∈ ords, Def.innerIndex g (i : Int) = k) →
        cellAt cells' k = cellAt cells k) := by
  induction ords generalizing cells with
  | nil =>
    refine ⟨cells, rfl, ?_, ?_⟩
    · rintro k ⟨i, hi, _⟩
      cases hi
    · intro k _
      rfl
  | cons i0 rest ih =>
    obtain ⟨c0, hc0⟩ := hpres i0 (List.mem_cons_self _ _)
    have hstep := updateCellsBody_eq g cells (i0 : Int) c0 hc0
    have hat : ∀ k, cellAt (cellModify (cellModify cells (Def.innerIndex g (i0 : Int))
          (fun c => { c with w := c.w + c.rezi })) (Def.innerIndex g (i0 : Int))
          (fun c => { c with rezi := 0 })) k
        = if k = Def.innerIndex g (i0 : Int) then
            (cellAt cells k).map (fun c => { c with w := c.w + c.rezi, rezi := 0 })
          else cellAt cells k := by
      intro k
      rw [cellAt_cellModify]
      by_cases hk : k = Def.innerIndex g (i0 : Int)
      · subst hk
        rw [if_pos rfl, if_pos rfl, cellAt_cellModify, if_pos rfl, Except_map_map]
      · rw [if_neg hk, if_neg hk, cellAt_cellModify, if_neg hk]
    have hpres1 : ∀ i ∈ rest, ∃ c, cellAt (cellModify (cellModify cells
          (Def.innerIndex g (i0 : Int)) (fun c => { c with w := c.w + c.rezi }))
          (Def.innerIndex g (i0 : Int)) (fun c => { c with rezi := 0 }))
          (Def.innerIndex g (i : Int)) = .ok c := by
      intro i hi
      obtain ⟨c, hc⟩ := hpres i (List.mem_cons_of_mem _ hi)
      rw [hat, hc]
      split_ifs
      · exact ⟨_, rfl⟩
      · exact ⟨_, rfl⟩
    obtain ⟨cells', hrun, hin, hout⟩ := ih _ hpres1
    refine ⟨cells', ?_, ?_, ?_⟩
    · rw [List.foldlM_cons, hstep]
      exact hrun
    · rintro k ⟨i, hi, hik⟩
      by_cases hrest : ∃ j ∈ rest, Def.innerIndex g (j : Int) = k
      · rw [hin k hrest, hat]
        split_ifs with hk
        · rw [Except_map_map]
          cases cellAt cells k with
          | error e => rfl
          | ok c =>
            simp only [Except.map]
            rw [Conservative.add_zero_right]
        · rfl
      · rw [hout k hrest, hat]
        have hk : k = Def.innerIndex g (i0 : Int) := by
          rcases List.mem_cons.mp hi with h | h
          · rw [← hik, h]
          · exact absurd ⟨i, h, hik⟩ hrest
        rw [if_pos hk]
    · intro k hk
      have h1 : ¬ ∃ j ∈ rest, Def.innerIndex g (j : Int) = k := by
        rintro ⟨j, hj, hjk⟩
        exact hk ⟨j, List.mem_cons_of_mem _ hj, hjk⟩
      have h2 : k ≠ Def.innerIndex g (i0 : Int) := by
        intro h
        exact hk ⟨i0, List.mem_cons_self _ _, h.symm⟩
      rw [hout k h1, hat, if_neg h2]

theorem updateCells_run {K : Type} [LinearOrderedField K] (g : Grid) (cells : Cells K)
    (hpres : ∀ i : Int, 0 ≤ i → i < Def.inner g →
      ∃ c, cellAt cells (Def.innerIndex g i) = .ok c) :
    ∃ cells', updateCells g cells = .ok cells' ∧
      (∀ i : Int, 0 ≤ i → i < Def.inner g →
        cellAt cells' (Def.innerIndex g i)
          = (cellAt cells (Def.innerIndex g i)).map
              (fun c => { c with w := c.w + c.rezi, rezi := 0 })) ∧
      (∀ k, (∀ i : Int, 0 ≤ i → i < Def.inner g → Def.innerIndex g i ≠ k) →
        cellAt cells' k = cellAt cells k) := by
  have hmem : ∀ i : Nat, i ∈ List.range (Def.inner g).toNat →
      (0 : Int) ≤ (i : Int) ∧ (i : Int) < Def.inner g := by
    intro i hi
    have h := List.mem_range.mp hi
    omega
  have hpres1 : ∀ i ∈ List.range (Def.inner g).toNat,
      ∃ c, cellAt cells (Def.innerIndex g (i : Int)) = .ok c := by
    intro i hi
    exact hpres i (hmem i hi).1 (hmem i hi).2
  obtain ⟨cells', hrun, hin, hout⟩ := updateCells_loop g _ cells hpres1
  refine ⟨cells', hrun, ?_, ?_⟩
  · intro i h0 h1
    apply hin
    refine ⟨i.toNat, List.mem_range.mpr (by omega), ?_⟩
    rw [Int.toNat_of_nonneg h0]
  · intro k hk
    apply hout
    rintro ⟨i, hi, hik⟩
    exact hk i (hmem i hi).1 (hmem i hi).2 hik

/-- C8: when every interior index `innerIndex(i)`, `0 <= i < inner`, is present in the
container, `updateCells` returns; the cell under every interior index is the old cell
with its state replaced by state plus residual (and its residual cleared), and the cell
under every other index, ghost cells included, is unchanged in all its fields. On a grid
with `xInner >= 1` and `gl >= 0` the indices visited by the loop are pairwise distinct,
so every interior cell is updated by exactly one iteration. -/
theorem updateCells_interior_ghost {K : Type} [LinearOrderedField K] (g : Grid)
    (cells : Cells K)
    (hpres : ∀ i : Int, 0 ≤ i → i < Def.inner g →
      ∃ c, cellAt cells (Def.innerIndex g i) = .ok c) :
    (∃ cells', updateCells g cells = .ok cells' ∧
      (∀ i : Int, 0 ≤ i → i < Def.inner g →
        cellAt cells' (Def.innerIndex g i)
          = (cellAt cells (Def.innerIndex g i)).map
              (fun c => { c with w := c.w + c.rezi, rezi := 0 })) ∧
      (∀ k, (∀ i : Int, 0 ≤ i → i < Def.inner g → Def.innerIndex g i ≠ k) →
        cellAt cells' k = cellAt cells k)) ∧
    (1 ≤ g.xInner → 0 ≤ g.gl →
      ((List.range (Def.inner g).toNat).map
        (fun i : Nat => Def.innerIndex g (i : Int))).Nodup) := by
  refine ⟨updateCells_run g cells hpres, ?_⟩
  intro hx hg
  apply List.Nodup.map_on ?_ (List.nodup_range _)
  intro x _ y _ h
  have h2 := innerIndex_inj g hx hg (x : Int) (y : Int) (Int.natCast_nonneg x)
    (Int.natCast_nonneg y) h
  exact_mod_cast h2

/-- C9: when every interior index is present, `updateCells` returns a container in which
the residual of every interior cell is the zero state, and a second `updateCells` on that
container returns and leaves the cell under every index as it is. -/
theorem updateCells_residual_reset {K : Type} [LinearOrderedField K] (g : Grid)
    (cells : Cells K)
    (hpres : ∀ i : Int, 0 ≤ i → i < Def.inner g →
      ∃ c, cellAt cells (Def.innerIndex g i) = .ok c) :
    ∃ cells1 cells2, updateCells g cells = .ok cells1 ∧
      (∀ i : Int, 0 ≤ i → i < Def.inner g →
        ∃ c, cellAt cells1 (Def.innerIndex g i) = .ok c ∧ c.rezi = 0) ∧
      updateCells g cells1 = .ok cells2 ∧
      (∀ k, cellAt cells2 k = cellAt cells1 k) := by
  obtain ⟨cells1, hrun1, hin1, _⟩ := updateCells_run g cells hpres
  have hzero : ∀ i : Int, 0 ≤ i → i < Def.inner g →
      ∃ c, cellAt cells1 (Def.innerIndex g i) = .ok c ∧ c.rezi = 0 := by
    intro i h0 h1
    obtain ⟨c, hc⟩ := hpres i h0 h1
    rw [hin1 i h0 h1, hc]
    exact ⟨_, rfl, rfl⟩
  have hpres1 : ∀ i : Int, 0 ≤ i → i < Def.inner g →
      ∃ c, cellAt cells1 (Def.innerIndex g i) = .ok c := by
    intro i h0 h1
    obtain ⟨c, hc, _⟩ := hzero i h0 h1
    exact ⟨c, hc⟩
  obtain ⟨cells2, hrun2, hin2, hout2⟩ := updateCells_run g cells1 hpres1
  refine ⟨cells1, cells2, hrun1, hzero, hrun2, ?_⟩
  intro k
  by_cases hk : ∃ i : Int, 0 ≤ i ∧ i < Def.inner g ∧ Def.innerIndex g i = k
  · obtain ⟨i, h0, h1, rfl⟩ := hk
    obtain ⟨c, hc, hcz⟩ := hzero i h0 h1
    rw [hin2 i h0 h1, hc]
    simp only [Except.map]
    rw [hcz, Conservative.add_zero_right]
    congr 1
    cases c
    simp only at hcz
    simp [hcz]
  · apply hout2
    intro i h0 h1 hik
    exact hk ⟨i, h0, h1, hik⟩


theorem meshTwo_present {K : Type} [LinearOrderedField K] :
    ∀ i : Int, 0 ≤ i → i < Def.inner gridTwo →
      ∃ c, cellAt (meshTwo : Cells K) (Def.innerIndex gridTwo i) = .ok c := by
  intro i h0 h1
  have h2 : i < 2 := h1
  interval_cases i
  · exact ⟨_, rfl⟩
  · exact ⟨_, rfl⟩

/-- The container `meshTwo` on the grid `gridTwo`, for C8. -/
theorem updateCells_interior_ghost_witness :
    (∃ cells', updateCells gridTwo (meshTwo : Cells ℚ) = .ok cells' ∧
      (∀ i : Int, 0 ≤ i → i < Def.inner gridTwo →
        cellAt cells' (Def.innerIndex gridTwo i)
          = (cellAt (meshTwo : Cells ℚ) (Def.innerIndex gridTwo i)).map
              (fun c => { c with w := c.w + c.rezi, rezi := 0 })) ∧
      (∀ k, (∀ i : Int, 0 ≤ i → i < Def.inner gridTwo → Def.innerIndex gridTwo i ≠ k) →
        cellAt cells' k = cellAt (meshTwo : Cells ℚ) k)) ∧
    (1 ≤ gridTwo.xInner → 0 ≤ gridTwo.gl →
      ((List.range (Def.inner gridTwo).toNat).map
        (fun i : Nat => Def.innerIndex gridTwo (i : Int))).Nodup) :=
  updateCells_interior_ghost gridTwo meshTwo meshTwo_present

/-- The container `meshTwo` on the grid `gridTwo`, for C9. -/
theorem updateCells_residual_reset_witness :
    ∃ cells1 cells2, updateCells gridTwo (meshTwo : Cells ℚ) = .ok cells1 ∧
      (∀ i : Int, 0 ≤ i → i < Def.inner gridTwo →
        ∃ c, cellAt cells1 (Def.innerIndex gridTwo i) = .ok c ∧ c.rezi = 0) ∧
      updateCells gridTwo cells1 = .ok cells2 ∧
      (∀ k, cellAt cells2 k = cellAt cells1 k) :=
  updateCells_residual_reset gridTwo meshTwo meshTwo_present


/-! ### Conservative and primitive variables (C10) -/

/-- C10: for a primitive state with `rho > 0` (the pressure may be any value, in
particular positive), the conservative state built by the expression of `Def::wInitial`
is mapped by `computePV` back to the same `rho`, `u`, `v` and `p`. -/
theorem computePV_conservativeOf {K : Type} [LinearOrderedField K] (sqrt : K → K)
    (rho u v p : K) (hrho : 0 < rho) :
    (computePV sqrt (Def.conservativeOf rho u v p)).rho = rho ∧
    (computePV sqrt (Def.conservativeOf rho u v p)).u = u ∧
    (computePV sqrt (Def.conservativeOf rho u v p)).v = v ∧
    (computePV sqrt (Def.conservativeOf rho u v p)).p = p := by
  have h : rho ≠ 0 := ne_of_gt hrho
  have hu : rho * u / rho = u := by field_simp
  have hv : rho * v / rho = v := by field_simp
  refine ⟨rfl, hu, hv, ?_⟩
  simp only [computePV, Def.conservativeOf, Def.rhoE, hu, hv, Def.KAPPA]
  norm_num
  field_simp
  ring

/-- The initial state `Def::wInitial` (rho = 1, u = 0.65, v = 0, p = 0.75), for C10. -/
theorem computePV_conservativeOf_witness :
    (computePV Real.sqrt (Def.wInitial : Conservative ℝ)).rho = 1 ∧
    (computePV Real.sqrt (Def.wInitial : Conservative ℝ)).u = 0.65 ∧
    (computePV Real.sqrt (Def.wInitial : Conservative ℝ)).v = 0 ∧
    (computePV Real.sqrt (Def.wInitial : Conservative ℝ)).p = 0.75 :=
  computePV_conservativeOf Real.sqrt 1 0.65 0 0.75 (by norm_num)

/-! ### Wave-speed ordering of HLLC (C5) -/

theorem key_case1 (a b cL cR cb d X Y : ℝ) (ha : 0 < a) (hb : 0 < b) (hab : a + b = 1)
    (hcL : 0 ≤ cL) (hcb : 0 ≤ cb)
    (hroe : a * cL ^ 2 + b * cR ^ 2 + (1 / 5) * a * b * d ^ 2 ≤ cb ^ 2)
    (hX : cb - a * d ≤ X) (hY : cL ≤ Y) (hZ : 0 ≤ X + d) :
    0 ≤ b ^ 2 * X ^ 2 + a ^ 2 * Y * (X + d) + (5 / 7) * (b ^ 2 * cR ^ 2 - a ^ 2 * cL ^ 2) := by
  have h5 : 0 ≤ a * cL := mul_nonneg ha.le hcL
  have h1 : a * cL ≤ cb := by
    have e : a * b * cL ^ 2 = a * cL ^ 2 - (a * cL) ^ 2 := by
      linear_combination (a * cL ^ 2) * hab
    have h2 : (a * cL) ^ 2 ≤ cb ^ 2 := by
      linarith [mul_nonneg hb.le (sq_nonneg cR),
        mul_nonneg (mul_nonneg ha.le hb.le) (sq_nonneg d),
        mul_nonneg (mul_nonneg ha.le hb.le) (sq_nonneg cL)]
    exact (abs_le_of_sq_le_sq' h2 hcb).2
  have h3' : b * X + a * (X + d) = X + a * d := by linear_combination X * hab
  have h3 : a * cL ≤ b * X + a * (X + d) := by linarith
  have h4 : cL * (X + d) ≤ Y * (X + d) := mul_le_mul_of_nonneg_right hY hZ
  have t1 := sq_nonneg (b * X - a * cL / 2)
  have t2 := mul_nonneg (sq_nonneg a) (sub_nonneg.mpr h4)
  have t3 := mul_nonneg h5 (sub_nonneg.mpr h3)
  have t4 := sq_nonneg (b * cR)
  have t5 := sq_nonneg (a * cL)
  linarith

theorem key_case2a (a b cL cR cb d X : ℝ) (ha : 0 < a) (hb : 0 < b) (hab : a + b = 1)
    (hcL : 0 ≤ cL) (hcb : 0 ≤ cb)
    (hroe : a * cL ^ 2 + b * cR ^ 2 + (1 / 5) * a * b * d ^ 2 ≤ cb ^ 2)
    (hX : cb - a * d ≤ X) (hY : cb - b * d ≤ cL) (hZ : X + d < 0) :
    0 ≤ b ^ 2 * X ^ 2 + a ^ 2 * cL * (X + d) + (5 / 7) * (b ^ 2 * cR ^ 2 - a ^ 2 * cL ^ 2) := by
  have hbd : d - a * d = b * d := by linear_combination (-d) * hab
  have hd : d < 0 := by
    by_contra h
    push_neg at h
    have := mul_nonneg hb.le h
    linarith
  have had := mul_pos ha (neg_pos.mpr hd)
  have h1 : 2 * cb - cL ≤ X + d := by linarith
  have h2 : 2 * cb < cL := by linarith
  have h3 : cb ≤ X := by linarith
  have h4 : cb ^ 2 ≤ X ^ 2 := pow_le_pow_left₀ hcb h3 2
  have h5 : a * cL ^ 2 ≤ cb ^ 2 := by
    linarith [mul_nonneg hb.le (sq_nonneg cR),
      mul_nonneg (mul_nonneg ha.le hb.le) (sq_nonneg d)]
  have h6 : 4 * cb ^ 2 < cL ^ 2 := by
    have := pow_lt_pow_left₀ h2 (by linarith) (two_ne_zero)
    linarith
  have h7 : a < 1 / 4 := by
    by_contra h
    push_neg at h
    have := mul_le_mul_of_nonneg_right h (sq_nonneg cL)
    linarith
  have h8 : a ^ 2 * cL * (2 * cb - cL) ≤ a ^ 2 * cL * (X + d) :=
    mul_le_mul_of_nonneg_left h1 (mul_nonneg (sq_nonneg a) hcL)
  have h9 : b ^ 2 * (a * cL ^ 2) ≤ b ^ 2 * X ^ 2 :=
    mul_le_mul_of_nonneg_left (le_trans h5 h4) (sq_nonneg b)
  have h10 : 0 ≤ a ^ 2 * cL * cb := mul_nonneg (mul_nonneg (sq_nonneg a) hcL) hcb
  have h11 : 0 ≤ a * cL ^ 2 * (b ^ 2 - (12 / 7) * a) := by
    apply mul_nonneg (mul_nonneg ha.le (sq_nonneg cL))
    have e : b ^ 2 - 12 / 7 * a = a ^ 2 + (1 - 26 / 7 * a) := by
      have hb' : b = 1 - a := by linarith
      rw [hb']
      ring
    rw [e]
    have := sq_nonneg a
    linarith
  have h12 := sq_nonneg (b * cR)
  linarith

theorem key_case2b (a b cL cR cb d X : ℝ) (ha : 0 < a) (hb : 0 < b) (hab : a + b = 1)
    (hcb : 0 ≤ cb)
    (hroe : a * cL ^ 2 + b * cR ^ 2 + (1 / 5) * a * b * d ^ 2 ≤ cb ^ 2)
    (hX : cb - a * d ≤ X) (hZ : X + d < 0) :
    0 ≤ b ^ 2 * X ^ 2 + a ^ 2 * (cb - b * d) * (X + d)
      + (5 / 7) * (b ^ 2 * cR ^ 2 - a ^ 2 * cL ^ 2) := by
  have hbd : d - a * d = b * d := by linear_combination (-d) * hab
  have hd : d < 0 := by
    by_contra h
    push_neg at h
    have := mul_nonneg hb.le h
    linarith
  have had := mul_pos ha (neg_pos.mpr hd)
  have hbd2 := mul_pos hb (neg_pos.mpr hd)
  have hX0 : 0 ≤ cb - a * d := by linarith
  have h1 : cb + b * d ≤ X + d := by linarith
  have h2 : 0 ≤ cb - b * d := by linarith
  have h3 : a ^ 2 * (cb - b * d) * (cb + b * d) ≤ a ^ 2 * (cb - b * d) * (X + d) :=
    mul_le_mul_of_nonneg_left h1 (mul_nonneg (sq_nonneg a) h2)
  have h4 : (cb - a * d) ^ 2 ≤ X ^ 2 := pow_le_pow_left₀ hX0 hX 2
  have h5 : b ^ 2 * (cb - a * d) ^ 2 ≤ b ^ 2 * X ^ 2 :=
    mul_le_mul_of_nonneg_left h4 (sq_nonneg b)
  have h6 : a * cL ^ 2 ≤ cb ^ 2 := by
    linarith [mul_nonneg hb.le (sq_nonneg cR),
      mul_nonneg (mul_nonneg ha.le hb.le) (sq_nonneg d)]
  have h7 : 0 ≤ 2 * a * b ^ 2 * cb * (-d) :=
    mul_nonneg (mul_nonneg (mul_nonneg (mul_nonneg (by norm_num) ha.le) (sq_nonneg b)) hcb)
      (by linarith)
  have h8 : (a ^ 2 + b ^ 2) * (a * cL ^ 2) ≤ (a ^ 2 + b ^ 2) * cb ^ 2 :=
    mul_le_mul_of_nonneg_left h6 (by positivity)
  have h9 : 0 ≤ a * cL ^ 2 * (a ^ 2 + b ^ 2 - (5 / 7) * a) := by
    apply mul_nonneg (mul_nonneg ha.le (sq_nonneg cL))
    have e : a ^ 2 + b ^ 2 - 5 / 7 * a = 2 * (a - 19 / 28) ^ 2 + 31 / 392 := by
      have hb' : b = 1 - a := by linarith
      rw [hb']
      ring
    rw [e]
    positivity
  have h12 := sq_nonneg (b * cR)
  linarith

theorem key_ineq (a b cL cR cb d : ℝ) (ha : 0 < a) (hb : 0 < b) (hab : a + b = 1)
    (hcL : 0 ≤ cL) (hcb : 0 ≤ cb)
    (hroe : a * cL ^ 2 + b * cR ^ 2 + (1 / 5) * a * b * d ^ 2 ≤ cb ^ 2) :
    0 ≤ b ^ 2 * (max cR (cb - a * d)) ^ 2
      + a ^ 2 * (max cL (cb - b * d)) * (max cR (cb - a * d) + d)
      + (5 / 7) * (b ^ 2 * cR ^ 2 - a ^ 2 * cL ^ 2) := by
  by_cases hZ : 0 ≤ max cR (cb - a * d) + d
  · exact key_case1 a b cL cR cb d _ _ ha hb hab hcL hcb hroe (le_max_right _ _)
      (le_max_left _ _) hZ
  · push_neg at hZ
    rcases le_total (cb - b * d) cL with h | h
    · rw [max_eq_left h]
      exact key_case2a a b cL cR cb d _ ha hb hab hcL hcb hroe (le_max_right _ _) h hZ
    · rw [max_eq_right h]
      exact key_case2b a b cL cR cb d _ ha hb hab hcb hroe (le_max_right _ _) hZ

theorem wave_order_norm (a b σ cL cR cb ql qr : ℝ) (ha : 0 < a) (hb : 0 < b)
    (hab : a + b = 1) (hσ : 0 < σ) (hcL : 0 < cL) (hcR : 0 < cR) (hcb : 0 ≤ cb)
    (hroe : a * cL ^ 2 + b * cR ^ 2 + 1 / 5 * a * b * (qr - ql) ^ 2 ≤ cb ^ 2) :
    min (ql - cL) (a * ql + b * qr - cb)
      ≤ ((b * σ) ^ 2 * qr * (max (qr + cR) (a * ql + b * qr + cb) - qr)
          - (a * σ) ^ 2 * ql * (min (ql - cL) (a * ql + b * qr - cb) - ql)
          + 5 / 7 * ((a * σ) ^ 2 * cL ^ 2) - 5 / 7 * ((b * σ) ^ 2 * cR ^ 2))
        / ((b * σ) ^ 2 * (max (qr + cR) (a * ql + b * qr + cb) - qr)
          - (a * σ) ^ 2 * (min (ql - cL) (a * ql + b * qr - cb) - ql))
    ∧ ((b * σ) ^ 2 * qr * (max (qr + cR) (a * ql + b * qr + cb) - qr)
          - (a * σ) ^ 2 * ql * (min (ql - cL) (a * ql + b * qr - cb) - ql)
          + 5 / 7 * ((a * σ) ^ 2 * cL ^ 2) - 5 / 7 * ((b * σ) ^ 2 * cR ^ 2))
        / ((b * σ) ^ 2 * (max (qr + cR) (a * ql + b * qr + cb) - qr)
          - (a * σ) ^ 2 * (min (ql - cL) (a * ql + b * qr - cb) - ql))
      ≤ max (qr + cR) (a * ql + b * qr + cb) := by
  have hX : max (qr + cR) (a * ql + b * qr + cb) = qr + max cR (cb - a * (qr - ql)) := by
    rw [← max_add_add_left]
    congr 1
    linear_combination qr * hab
  have hY : min (ql - cL) (a * ql + b * qr - cb) = ql - max cL (cb - b * (qr - ql)) := by
    rw [← min_sub_sub_left]
    congr 1
    linear_combination ql * hab
  have hkeyR := key_ineq a b cL cR cb (qr - ql) ha hb hab hcL.le hcb hroe
  have hkeyL := key_ineq b a cR cL cb (qr - ql) hb ha (by linarith) hcR.le hcb
    (by linarith)
  rw [hX, hY]
  have hXpos : 0 < max cR (cb - a * (qr - ql)) := lt_of_lt_of_le hcR (le_max_left _ _)
  have hYpos : 0 < max cL (cb - b * (qr - ql)) := lt_of_lt_of_le hcL (le_max_left _ _)
  generalize max cR (cb - a * (qr - ql)) = X at hkeyR hkeyL hXpos
  generalize max cL (cb - b * (qr - ql)) = Y at hkeyR hkeyL hYpos
  have hD : 0 < (b * σ) ^ 2 * (qr + X - qr) - (a * σ) ^ 2 * (ql - Y - ql) := by
    have h1 : (b * σ) ^ 2 * (qr + X - qr) - (a * σ) ^ 2 * (ql - Y - ql)
        = (b * σ) ^ 2 * X + (a * σ) ^ 2 * Y := by
      ring
    rw [h1]
    positivity
  have hσ2 : 0 < σ ^ 2 := by positivity
  constructor
  · rw [le_div_iff₀ hD]
    have h1 : ((b * σ) ^ 2 * qr * (qr + X - qr) - (a * σ) ^ 2 * ql * (ql - Y - ql)
          + 5 / 7 * ((a * σ) ^ 2 * cL ^ 2) - 5 / 7 * ((b * σ) ^ 2 * cR ^ 2))
        - (ql - Y) * ((b * σ) ^ 2 * (qr + X - qr) - (a * σ) ^ 2 * (ql - Y - ql))
        = σ ^ 2 * (a ^ 2 * Y ^ 2 + b ^ 2 * X * (Y + (qr - ql))
            + 5 / 7 * (a ^ 2 * cL ^ 2 - b ^ 2 * cR ^ 2)) := by
      ring
    have h2 := mul_nonneg hσ2.le hkeyL
    linarith
  · rw [div_le_iff₀ hD]
    have h1 : (qr + X) * ((b * σ) ^ 2 * (qr + X - qr) - (a * σ) ^ 2 * (ql - Y - ql))
        - ((b * σ) ^ 2 * qr * (qr + X - qr) - (a * σ) ^ 2 * ql * (ql - Y - ql)
          + 5 / 7 * ((a * σ) ^ 2 * cL ^ 2) - 5 / 7 * ((b * σ) ^ 2 * cR ^ 2))
        = σ ^ 2 * (b ^ 2 * X ^ 2 + a ^ 2 * Y * (X + (qr - ql))
            + 5 / 7 * (b ^ 2 * cR ^ 2 - a ^ 2 * cL ^ 2)) := by
      ring
    have h2 := mul_nonneg hσ2.le hkeyR
    linarith

theorem bar_weights (rho_l rho_r x y : ℝ) (hl : 0 < rho_l) (hr : 0 < rho_r) :
    bar Real.sqrt rho_l rho_r x y
      = Real.sqrt rho_l / (Real.sqrt rho_l + Real.sqrt rho_r) * x
        + Real.sqrt rho_r / (Real.sqrt rho_l + Real.sqrt rho_r) * y := by
  have h1 : 0 < Real.sqrt rho_l := Real.sqrt_pos.mpr hl
  have h2 : 0 < Real.sqrt rho_r := Real.sqrt_pos.mpr hr
  unfold bar
  field_simp

theorem computePV_c_sq (w : Conservative ℝ) (hrho : 0 < w.r1)
    (hp : 0 < (computePV Real.sqrt w).p) :
    (computePV Real.sqrt w).c ^ 2 = Def.KAPPA * (computePV Real.sqrt w).p / w.r1 := by
  have h : (computePV Real.sqrt w).c
      = Real.sqrt (Def.KAPPA * (computePV Real.sqrt w).p / w.r1) := rfl
  rw [h]
  apply Real.sq_sqrt
  have hk := KAPPA_pos
  positivity

theorem computePV_enthalpy (w : Conservative ℝ) (hrho : 0 < w.r1)
    (hp : 0 < (computePV Real.sqrt w).p) :
    (Def.KAPPA - 1) * (computePV Real.sqrt w).h
      = (computePV Real.sqrt w).c ^ 2
        + 1 / 5 * ((computePV Real.sqrt w).u ^ 2 + (computePV Real.sqrt w).v ^ 2) := by
  rw [computePV_c_sq w hrho hp]
  have h : w.r1 ≠ 0 := ne_of_gt hrho
  simp only [computePV, Def.KAPPA]
  field_simp
  ring

theorem roe_radicand_abs (a b k hL hR uL uR vL vR cL cR : ℝ) (hab : a + b = 1)
    (hk : k = 2 / 5)
    (h1 : k * hL = cL ^ 2 + 1 / 5 * (uL ^ 2 + vL ^ 2))
    (h2 : k * hR = cR ^ 2 + 1 / 5 * (uR ^ 2 + vR ^ 2)) :
    k * ((a * hL + b * hR) - 0.5 * ((a * uL + b * uR) ^ 2 + (a * vL + b * vR) ^ 2))
      = a * cL ^ 2 + b * cR ^ 2 + 1 / 5 * a * b * ((uL - uR) ^ 2 + (vL - vR) ^ 2) := by
  subst hk
  norm_num
  linear_combination a * h1 + b * h2
    - (1 / 5 * (a * uL ^ 2 + b * uR ^ 2 + a * vL ^ 2 + b * vR ^ 2)) * hab

theorem normal_jump_sq_le (nx ny du dv : ℝ) (hn : nx ^ 2 + ny ^ 2 = 1) :
    (du * nx + dv * ny) ^ 2 ≤ du ^ 2 + dv ^ 2 := by
  have h : du ^ 2 + dv ^ 2 - (du * nx + dv * ny) ^ 2 = (du * ny - dv * nx) ^ 2 := by
    linear_combination (-(du ^ 2 + dv ^ 2)) * hn
  nlinarith [sq_nonneg (du * ny - dv * nx)]

/-- C5: for a face with unit normal and left and right states with positive density and
pressure, the wave speeds computed by `HLLC` satisfy `SL <= SM <= SR`. -/
theorem HLLC_wave_order (face : Interface ℝ) (wl wr : Conservative ℝ)
    (hn : face.nx ^ 2 + face.ny ^ 2 = 1)
    (hrl : 0 < wl.r1) (hpl : 0 < (computePV Real.sqrt wl).p)
    (hrr : 0 < wr.r1) (hpr : 0 < (computePV Real.sqrt wr).p) :
    (hllcWaves Real.sqrt face wl wr).SL ≤ (hllcWaves Real.sqrt face wl wr).SM ∧
    (hllcWaves Real.sqrt face wl wr).SM ≤ (hllcWaves Real.sqrt face wl wr).SR := by
  have hsL : 0 < Real.sqrt wl.r1 := Real.sqrt_pos.mpr hrl
  have hsR : 0 < Real.sqrt wr.r1 := Real.sqrt_pos.mpr hrr
  have hσ : 0 < Real.sqrt wl.r1 + Real.sqrt wr.r1 := by linarith
  have hcL := computePV_c_pos wl hrl hpl
  have hcR := computePV_c_pos wr hrr hpr
  have hcL2 := computePV_c_sq wl hrl hpl
  have hcR2 := computePV_c_sq wr hrr hpr
  have hhL := computePV_enthalpy wl hrl hpl
  have hhR := computePV_enthalpy wr hrr hpr
  have hrhoL : (computePV Real.sqrt wl).rho = wl.r1 := rfl
  have hrhoR : (computePV Real.sqrt wr).rho = wr.r1 := rfl
  -- the weights of the Roe average
  have ha : 0 < Real.sqrt wl.r1 / (Real.sqrt wl.r1 + Real.sqrt wr.r1) := div_pos hsL hσ
  have hb : 0 < Real.sqrt wr.r1 / (Real.sqrt wl.r1 + Real.sqrt wr.r1) := div_pos hsR hσ
  have hab : Real.sqrt wl.r1 / (Real.sqrt wl.r1 + Real.sqrt wr.r1)
      + Real.sqrt wr.r1 / (Real.sqrt wl.r1 + Real.sqrt wr.r1) = 1 := by
    field_simp
  have hraL : wl.r1 = (Real.sqrt wl.r1 / (Real.sqrt wl.r1 + Real.sqrt wr.r1)
      * (Real.sqrt wl.r1 + Real.sqrt wr.r1)) ^ 2 := by
    rw [div_mul_cancel₀ _ (ne_of_gt hσ), Real.sq_sqrt hrl.le]
  have hraR : wr.r1 = (Real.sqrt wr.r1 / (Real.sqrt wl.r1 + Real.sqrt wr.r1)
      * (Real.sqrt wl.r1 + Real.sqrt wr.r1)) ^ 2 := by
    rw [div_mul_cancel₀ _ (ne_of_gt hσ), Real.sq_sqrt hrr.le]
  -- the Roe speed of sound
  have hrad : (Def.KAPPA - 1) * (bar Real.sqrt wl.r1 wr.r1 (computePV Real.sqrt wl).h
        (computePV Real.sqrt wr).h
      - 0.5 * ((bar Real.sqrt wl.r1 wr.r1 (computePV Real.sqrt wl).u
            (computePV Real.sqrt wr).u) ^ 2
          + (bar Real.sqrt wl.r1 wr.r1 (computePV Real.sqrt wl).v
            (computePV Real.sqrt wr).v) ^ 2))
      = Real.sqrt wl.r1 / (Real.sqrt wl.r1 + Real.sqrt wr.r1) * (computePV Real.sqrt wl).c ^ 2
        + Real.sqrt wr.r1 / (Real.sqrt wl.r1 + Real.sqrt wr.r1)
          * (computePV Real.sqrt wr).c ^ 2
        + 1 / 5 * (Real.sqrt wl.r1 / (Real.sqrt wl.r1 + Real.sqrt wr.r1))
          * (Real.sqrt wr.r1 / (Real.sqrt wl.r1 + Real.sqrt wr.r1))
          * (((computePV Real.sqrt wl).u - (computePV Real.sqrt wr).u) ^ 2
            + ((computePV Real.sqrt wl).v - (computePV Real.sqrt wr).v) ^ 2) := by
    rw [bar_weights _ _ _ _ hrl hrr, bar_weights _ _ _ _ hrl hrr, bar_weights _ _ _ _ hrl hrr]
    exact roe_radicand_abs _ _ _ _ _ _ _ _ _ _ _ hab (by unfold Def.KAPPA; norm_num) hhL hhR
  have hjump : (((computePV Real.sqrt wr).u * face.nx + (computePV Real.sqrt wr).v * face.ny)
        - ((computePV Real.sqrt wl).u * face.nx + (computePV Real.sqrt wl).v * face.ny)) ^ 2
      ≤ ((computePV Real.sqrt wl).u - (computePV Real.sqrt wr).u) ^ 2
        + ((computePV Real.sqrt wl).v - (computePV Real.sqrt wr).v) ^ 2 := by
    have h := normal_jump_sq_le face.nx face.ny
      ((computePV Real.sqrt wr).u - (computePV Real.sqrt wl).u)
      ((computePV Real.sqrt wr).v - (computePV Real.sqrt wl).v) hn
    have e1 : (((computePV Real.sqrt wr).u * face.nx + (computePV Real.sqrt wr).v * face.ny)
        - ((computePV Real.sqrt wl).u * face.nx + (computePV Real.sqrt wl).v * face.ny)) ^ 2
        = (((computePV Real.sqrt wr).u - (computePV Real.sqrt wl).u) * face.nx
          + ((computePV Real.sqrt wr).v - (computePV Real.sqrt wl).v) * face.ny) ^ 2 := by
      ring
    have e2 : ((computePV Real.sqrt wl).u - (computePV Real.sqrt wr).u) ^ 2
        + ((computePV Real.sqrt wl).v - (computePV Real.sqrt wr).v) ^ 2
        = ((computePV Real.sqrt wr).u - (computePV Real.sqrt wl).u) ^ 2
          + ((computePV Real.sqrt wr).v - (computePV Real.sqrt wl).v) ^ 2 := by
      ring
    rw [e1, e2]
    exact h
  have hcbdef : (hllcWaves Real.sqrt face wl wr).c_bar
      = Real.sqrt ((Def.KAPPA - 1) * (bar Real.sqrt wl.r1 wr.r1 (computePV Real.sqrt wl).h
        (computePV Real.sqrt wr).h
      - 0.5 * ((bar Real.sqrt wl.r1 wr.r1 (computePV Real.sqrt wl).u
            (computePV Real.sqrt wr).u) ^ 2
          + (bar Real.sqrt wl.r1 wr.r1 (computePV Real.sqrt wl).v
            (computePV Real.sqrt wr).v) ^ 2))) := rfl
  have hSL : (hllcWaves Real.sqrt face wl wr).SL
      = min (((computePV Real.sqrt wl).u * face.nx + (computePV Real.sqrt wl).v * face.ny)
          - (computePV Real.sqrt wl).c)
        (bar Real.sqrt wl.r1 wr.r1
            ((computePV Real.sqrt wl).u * face.nx + (computePV Real.sqrt wl).v * face.ny)
            ((computePV Real.sqrt wr).u * face.nx + (computePV Real.sqrt wr).v * face.ny)
          - (hllcWaves Real.sqrt face wl wr).c_bar) := rfl
  have hSR : (hllcWaves Real.sqrt face wl wr).SR
      = max (((computePV Real.sqrt wr).u * face.nx + (computePV Real.sqrt wr).v * face.ny)
          + (computePV Real.sqrt wr).c)
        (bar Real.sqrt wl.r1 wr.r1
            ((computePV Real.sqrt wl).u * face.nx + (computePV Real.sqrt wl).v * face.ny)
            ((computePV Real.sqrt wr).u * face.nx + (computePV Real.sqrt wr).v * face.ny)
          + (hllcWaves Real.sqrt face wl wr).c_bar) := rfl
  have hSM : (hllcWaves Real.sqrt face wl wr).SM
      = (wr.r1 * ((computePV Real.sqrt wr).u * face.nx + (computePV Real.sqrt wr).v * face.ny)
            * ((hllcWaves Real.sqrt face wl wr).SR
              - ((computePV Real.sqrt wr).u * face.nx + (computePV Real.sqrt wr).v * face.ny))
          - wl.r1 * ((computePV Real.sqrt wl).u * face.nx
              + (computePV Real.sqrt wl).v * face.ny)
            * ((hllcWaves Real.sqrt face wl wr).SL
              - ((computePV Real.sqrt wl).u * face.nx + (computePV Real.sqrt wl).v * face.ny))
          + (computePV Real.sqrt wl).p - (computePV Real.sqrt wr).p)
        / (wr.r1 * ((hllcWaves Real.sqrt face wl wr).SR
              - ((computePV Real.sqrt wr).u * face.nx + (computePV Real.sqrt wr).v * face.ny))
          - wl.r1 * ((hllcWaves Real.sqrt face wl wr).SL
              - ((computePV Real.sqrt wl).u * face.nx
                + (computePV Real.sqrt wl).v * face.ny))) := rfl
  have hcb0 : 0 ≤ (hllcWaves Real.sqrt face wl wr).c_bar := by
    rw [hcbdef]
    exact Real.sqrt_nonneg _
  have hroe : Real.sqrt wl.r1 / (Real.sqrt wl.r1 + Real.sqrt wr.r1)
        * (computePV Real.sqrt wl).c ^ 2
      + Real.sqrt wr.r1 / (Real.sqrt wl.r1 + Real.sqrt wr.r1) * (computePV Real.sqrt wr).c ^ 2
      + 1 / 5 * (Real.sqrt wl.r1 / (Real.sqrt wl.r1 + Real.sqrt wr.r1))
        * (Real.sqrt wr.r1 / (Real.sqrt wl.r1 + Real.sqrt wr.r1))
        * (((computePV Real.sqrt wr).u * face.nx + (computePV Real.sqrt wr).v * face.ny)
          - ((computePV Real.sqrt wl).u * face.nx + (computePV Real.sqrt wl).v * face.ny)) ^ 2
      ≤ (hllcWaves Real.sqrt face wl wr).c_bar ^ 2 := by
    have hab0 : 0 ≤ 1 / 5 * (Real.sqrt wl.r1 / (Real.sqrt wl.r1 + Real.sqrt wr.r1))
        * (Real.sqrt wr.r1 / (Real.sqrt wl.r1 + Real.sqrt wr.r1)) := by positivity
    have h1 := mul_le_mul_of_nonneg_left hjump hab0
    have h2 : 0 ≤ (Def.KAPPA - 1) * (bar Real.sqrt wl.r1 wr.r1 (computePV Real.sqrt wl).h
        (computePV Real.sqrt wr).h
      - 0.5 * ((bar Real.sqrt wl.r1 wr.r1 (computePV Real.sqrt wl).u
            (computePV Real.sqrt wr).u) ^ 2
          + (bar Real.sqrt wl.r1 wr.r1 (computePV Real.sqrt wl).v
            (computePV Real.sqrt wr).v) ^ 2)) := by
      rw [hrad]
      positivity
    rw [hcbdef, Real.sq_sqrt h2, hrad]
    linarith
  have hpL : (computePV Real.sqrt wl).p = 5 / 7 * (wl.r1 * (computePV Real.sqrt wl).c ^ 2) := by
    rw [hcL2]
    unfold Def.KAPPA
    field_simp
    ring
  have hpR : (computePV Real.sqrt wr).p = 5 / 7 * (wr.r1 * (computePV Real.sqrt wr).c ^ 2) := by
    rw [hcR2]
    unfold Def.KAPPA
    field_simp
    ring
  have key := wave_order_norm _ _ _ _ _ _
    ((computePV Real.sqrt wl).u * face.nx + (computePV Real.sqrt wl).v * face.ny)
    ((computePV Real.sqrt wr).u * face.nx + (computePV Real.sqrt wr).v * face.ny)
    ha hb hab hσ hcL hcR hcb0 hroe
  rw [← hraL, ← hraR, ← bar_weights _ _ _ _ hrl hrr, ← hpL, ← hpR, ← hSL, ← hSR, ← hSM] at key
  exact key


/-- The face `faceOne` between the state `wOne` and the state `wDense` of twice its
density, for C5. -/
theorem HLLC_wave_order_witness :
    (hllcWaves Real.sqrt faceOne wOne wDense).SL ≤ (hllcWaves Real.sqrt faceOne wOne wDense).SM ∧
    (hllcWaves Real.sqrt faceOne wOne wDense).SM ≤ (hllcWaves Real.sqrt faceOne wOne wDense).SR :=
  HLLC_wave_order faceOne wOne wDense (by norm_num [faceOne]) (by norm_num [wOne])
    (by norm_num [computePV, wOne, Def.KAPPA]) (by norm_num [wDense])
    (by norm_num [computePV, wDense, Def.KAPPA])

/-! ### The pressure coefficient (C17) -/

/-- C17, the code at the failing input: for the far field `p_infty = 0`, `rho_infty = 1`,
`u_infty = 0`, `v_infty = 1` and the inner pressure 1, `computeCP` returns 1, while the
standard pressure coefficient `(p - p_infty)/(0.5*rho_infty*(u_infty^2 + v_infty^2))`
is 2. -/
theorem computeCP_not_standard :
    computeCP (boundSide : Bound ℚ) 1 = 1 ∧ standardCP (boundSide : Bound ℚ) 1 = 2 := by
  constructor <;> norm_num [computeCP, standardCP, boundSide]

/-- When the far-field velocity has no y-component, `computeCP` is the standard pressure
coefficient. -/
theorem computeCP_standard_of_v_zero {K : Type} [LinearOrderedField K] (bound : Bound K)
    (p : K) (hv : bound.v_infty = 0) : computeCP bound p = standardCP bound p := by
  simp [computeCP, standardCP, hv]

/-! ### The star region of HLLC (C13, C19, C20) -/

/-- C13: when the denominator of `SM`, `rho_R*(SR - qR) - rho_L*(SL - qL)`, is not zero,
the star pressure that `HLLC` computes from the left side,
`rho_L*(qL - SL)*(qL - SM) + pL`, equals the same expression of the right side,
`rho_R*(qR - SR)*(qR - SM) + pR`. -/
theorem HLLC_p_star_consistent {K : Type} [LinearOrderedField K] (sqrt : K → K)
    (face : Interface K) (wl wr : Conservative K)
    (hD : (computePV sqrt wr).rho
          * ((hllcWaves sqrt face wl wr).SR - (hllcWaves sqrt face wl wr).qr)
        - (computePV sqrt wl).rho
          * ((hllcWaves sqrt face wl wr).SL - (hllcWaves sqrt face wl wr).ql) ≠ 0) :
    (hllcWaves sqrt face wl wr).p_star
        = (computePV sqrt wl).rho
            * ((hllcWaves sqrt face wl wr).ql - (hllcWaves sqrt face wl wr).SL)
            * ((hllcWaves sqrt face wl wr).ql - (hllcWaves sqrt face wl wr).SM)
          + (computePV sqrt wl).p
    ∧ (computePV sqrt wl).rho
            * ((hllcWaves sqrt face wl wr).ql - (hllcWaves sqrt face wl wr).SL)
            * ((hllcWaves sqrt face wl wr).ql - (hllcWaves sqrt face wl wr).SM)
          + (computePV sqrt wl).p
        = (computePV sqrt wr).rho
            * ((hllcWaves sqrt face wl wr).qr - (hllcWaves sqrt face wl wr).SR)
            * ((hllcWaves sqrt face wl wr).qr - (hllcWaves sqrt face wl wr).SM)
          + (computePV sqrt wr).p := by
  refine ⟨rfl, ?_⟩
  have hSM : (hllcWaves sqrt face wl wr).SM
      = ((computePV sqrt wr).rho * (hllcWaves sqrt face wl wr).qr
            * ((hllcWaves sqrt face wl wr).SR - (hllcWaves sqrt face wl wr).qr)
          - (computePV sqrt wl).rho * (hllcWaves sqrt face wl wr).ql
            * ((hllcWaves sqrt face wl wr).SL - (hllcWaves sqrt face wl wr).ql)
          + (computePV sqrt wl).p - (computePV sqrt wr).p)
        / ((computePV sqrt wr).rho
            * ((hllcWaves sqrt face wl wr).SR - (hllcWaves sqrt face wl wr).qr)
          - (computePV sqrt wl).rho
            * ((hllcWaves sqrt face wl wr).SL - (hllcWaves sqrt face wl wr).ql)) := rfl
  rw [hSM]
  generalize (hllcWaves sqrt face wl wr).SR = SR at hD ⊢
  generalize (hllcWaves sqrt face wl wr).SL = SL at hD ⊢
  generalize (hllcWaves sqrt face wl wr).ql = ql at hD ⊢
  generalize (hllcWaves sqrt face wl wr).qr = qr at hD ⊢
  field_simp
  ring

theorem hllcWaves_SR_ge {K : Type} [LinearOrderedField K] (sqrt : K → K)
    (face : Interface K) (wl wr : Conservative K) :
    (hllcWaves sqrt face wl wr).qr + (computePV sqrt wr).c ≤ (hllcWaves sqrt face wl wr).SR :=
  le_max_left _ _

theorem hllcWaves_SL_le {K : Type} [LinearOrderedField K] (sqrt : K → K)
    (face : Interface K) (wl wr : Conservative K) :
    (hllcWaves sqrt face wl wr).SL ≤ (hllcWaves sqrt face wl wr).ql - (computePV sqrt wl).c :=
  min_le_left _ _

/-- C19: for left and right states with positive density and pressure, `SR - qR >= cR > 0`
and `SL - qL <= -cL < 0`, so the denominator `rho_R*(SR - qR) - rho_L*(SL - qL)` of the
contact speed `SM` in `HLLC` is strictly positive. -/
theorem HLLC_SM_denominator_pos (face : Interface ℝ) (wl wr : Conservative ℝ)
    (hrl : 0 < wl.r1) (hpl : 0 < (computePV Real.sqrt wl).p)
    (hrr : 0 < wr.r1) (hpr : 0 < (computePV Real.sqrt wr).p) :
    0 < (computePV Real.sqrt wr).c ∧
    (computePV Real.sqrt wr).c
      ≤ (hllcWaves Real.sqrt face wl wr).SR - (hllcWaves Real.sqrt face wl wr).qr ∧
    0 < (computePV Real.sqrt wl).c ∧
    (hllcWaves Real.sqrt face wl wr).SL - (hllcWaves Real.sqrt face wl wr).ql
      ≤ -(computePV Real.sqrt wl).c ∧
    0 < (computePV Real.sqrt wr).rho
          * ((hllcWaves Real.sqrt face wl wr).SR - (hllcWaves Real.sqrt face wl wr).qr)
        - (computePV Real.sqrt wl).rho
          * ((hllcWaves Real.sqrt face wl wr).SL - (hllcWaves Real.sqrt face wl wr).ql) := by
  have hcL := computePV_c_pos wl hrl hpl
  have hcR := computePV_c_pos wr hrr hpr
  have h1 := hllcWaves_SR_ge Real.sqrt face wl wr
  have h2 := hllcWaves_SL_le Real.sqrt face wl wr
  have hrhoL : (computePV Real.sqrt wl).rho = wl.r1 := rfl
  have hrhoR : (computePV Real.sqrt wr).rho = wr.r1 := rfl
  refine ⟨hcR, by linarith, hcL, by linarith, ?_⟩
  rw [hrhoL, hrhoR]
  have h3 : 0 < wr.r1
      * ((hllcWaves Real.sqrt face wl wr).SR - (hllcWaves Real.sqrt face wl wr).qr) :=
    mul_pos hrr (by linarith)
  have h4 : 0 < wl.r1
      * ((hllcWaves Real.sqrt face wl wr).ql - (hllcWaves Real.sqrt face wl wr).SL) :=
    mul_pos hrl (by linarith)
  linarith

/-- The face `faceOne` between the states `wOne` and `wDense`, for C19. -/
theorem HLLC_SM_denominator_pos_witness :
    0 < (computePV Real.sqrt (wDense : Conservative ℝ)).c ∧
    (computePV Real.sqrt (wDense : Conservative ℝ)).c
      ≤ (hllcWaves Real.sqrt faceOne wOne wDense).SR
        - (hllcWaves Real.sqrt faceOne wOne wDense).qr ∧
    0 < (computePV Real.sqrt (wOne : Conservative ℝ)).c ∧
    (hllcWaves Real.sqrt faceOne wOne wDense).SL - (hllcWaves Real.sqrt faceOne wOne wDense).ql
      ≤ -(computePV Real.sqrt (wOne : Conservative ℝ)).c ∧
    0 < (computePV Real.sqrt (wDense : Conservative ℝ)).rho
          * ((hllcWaves Real.sqrt faceOne wOne wDense).SR
            - (hllcWaves Real.sqrt faceOne wOne wDense).qr)
        - (computePV Real.sqrt (wOne : Conservative ℝ)).rho
          * ((hllcWaves Real.sqrt faceOne wOne wDense).SL
            - (hllcWaves Real.sqrt faceOne wOne wDense).ql) :=
  HLLC_SM_denominator_pos faceOne wOne wDense (by norm_num [wOne])
    (by norm_num [computePV, wOne, Def.KAPPA]) (by norm_num [wDense])
    (by norm_num [computePV, wDense, Def.KAPPA])

/-- The face `faceOne` between two cells holding `wOne`, where the denominator of `SM`
is 2, for C13. -/
theorem HLLC_p_star_consistent_witness :
    (hllcWaves Real.sqrt faceOne wOne wOne).p_star
        = (computePV Real.sqrt (wOne : Conservative ℝ)).rho
            * ((hllcWaves Real.sqrt faceOne wOne wOne).ql
              - (hllcWaves Real.sqrt faceOne wOne wOne).SL)
            * ((hllcWaves Real.sqrt faceOne wOne wOne).ql
              - (hllcWaves Real.sqrt faceOne wOne wOne).SM)
          + (computePV Real.sqrt (wOne : Conservative ℝ)).p
    ∧ (computePV Real.sqrt (wOne : Conservative ℝ)).rho
            * ((hllcWaves Real.sqrt faceOne wOne wOne).ql
              - (hllcWaves Real.sqrt faceOne wOne wOne).SL)
            * ((hllcWaves Real.sqrt faceOne wOne wOne).ql
              - (hllcWaves Real.sqrt faceOne wOne wOne).SM)
          + (computePV Real.sqrt (wOne : Conservative ℝ)).p
        = (computePV Real.sqrt (wOne : Conservative ℝ)).rho
            * ((hllcWaves Real.sqrt faceOne wOne wOne).qr
              - (hllcWaves Real.sqrt faceOne wOne wOne).SR)
            * ((hllcWaves Real.sqrt faceOne wOne wOne).qr
              - (hllcWaves Real.sqrt faceOne wOne wOne).SM)
          + (computePV Real.sqrt (wOne : Conservative ℝ)).p :=
  HLLC_p_star_consistent Real.sqrt faceOne wOne wOne (by
    rw [hllcWaves_same faceOne wOne (by norm_num [wOne])
      (by norm_num [computePV, wOne, Def.KAPPA])]
    simp only [computePV_wOne]
    norm_num)

theorem star_flux_jump {K : Type} [LinearOrderedField K] (face : Interface K)
    (w : Conservative K) (q S M p ps : K) (h : S ≠ M) :
    flux face ((1 / (S - M)) • fluxStar face w q S M p ps) M ps
      = flux face w q p + S • ((1 / (S - M)) • fluxStar face w q S M p ps - w) := by
  have h2 : S - M ≠ 0 := sub_ne_zero.mpr h
  rw [Conservative.eq_iff]
  simp only [flux, fluxStar, Conservative.add_def, Conservative.sub_def,
    Conservative.smul_def]
  refine ⟨?_, ?_, ?_, ?_⟩ <;> · field_simp; ring

theorem HLLC_eq_cases {K : Type} [LinearOrderedField K] (sqrt : K → K)
    (cells : Cells K) (face : Interface K) (cl cr : Cell K)
    (hl : cellAt cells face.left = .ok cl) (hr : cellAt cells face.right = .ok cr) :
    HLLC sqrt cells face
      = if (hllcWaves sqrt face cl.w cr.w).SL > 0 then
          .ok (flux face cl.w (hllcWaves sqrt face cl.w cr.w).ql (computePV sqrt cl.w).p)
        else if 0 < (hllcWaves sqrt face cl.w cr.w).SM then
          .ok (flux face (wlStar sqrt face cl.w cr.w) (hllcWaves sqrt face cl.w cr.w).SM
            (hllcWaves sqrt face cl.w cr.w).p_star)
        else if 0 ≤ (hllcWaves sqrt face cl.w cr.w).SR then
          .ok (flux face (wrStar sqrt face cl.w cr.w) (hllcWaves sqrt face cl.w cr.w).SM
            (hllcWaves sqrt face cl.w cr.w).p_star)
        else
          .ok (flux face cr.w (hllcWaves sqrt face cl.w cr.w).qr (computePV sqrt cr.w).p) := by
  unfold HLLC
  simp only [hl, hr, bind, Except.bind, pure, Except.pure]
  by_cases h1 : (hllcWaves sqrt face cl.w cr.w).SL > 0
  · simp only [h1, if_true]
  · have h1' : (hllcWaves sqrt face cl.w cr.w).SL ≤ 0 := not_lt.mp h1
    by_cases h2 : 0 < (hllcWaves sqrt face cl.w cr.w).SM
    · simp only [h1, if_false, h1', true_and, h2, if_true]
      rfl
    · have h2' : (hllcWaves sqrt face cl.w cr.w).SM ≤ 0 := not_lt.mp h2
      by_cases h3 : 0 ≤ (hllcWaves sqrt face cl.w cr.w).SR
      · simp only [h1, if_false, h2, and_false, h2', true_and, h3, if_true]
        rfl
      · have h3' : (hllcWaves sqrt face cl.w cr.w).SR < 0 := not_le.mp h3
        simp only [h1, if_false, h2, and_false, h3, h3', if_true]


theorem Conservative.add_zero_smul {K : Type} [LinearOrderedField K]
    (F x : Conservative K) : F + (0 : K) • x = F := by
  rw [Conservative.eq_iff]
  simp [Conservative.add_def, Conservative.smul_def]

/-- C20: when `SL != SM` and `SR != SM`, the star fluxes of `HLLC` satisfy the jump
conditions across the outer waves, `flux(face, wlStar, SM, p_star) = F_L + SL*(wlStar - wl)`
and `flux(face, wrStar, SM, p_star) = F_R + SR*(wrStar - wr)`; these are the values that
`HLLC` returns in its two star cases, and at `SL = 0` (at `SR = 0`) the left (right) star
flux is the physical flux `F_L` (`F_R`) of the neighbouring case. -/
theorem HLLC_rankine_hugoniot {K : Type} [LinearOrderedField K] (sqrt : K → K)
    (cells : Cells K) (face : Interface K) (cl cr : Cell K)
    (hl : cellAt cells face.left = .ok cl) (hr : cellAt cells face.right = .ok cr)
    (hL : (hllcWaves sqrt face cl.w cr.w).SL ≠ (hllcWaves sqrt face cl.w cr.w).SM)
    (hR : (hllcWaves sqrt face cl.w cr.w).SR ≠ (hllcWaves sqrt face cl.w cr.w).SM) :
    flux face (wlStar sqrt face cl.w cr.w) (hllcWaves sqrt face cl.w cr.w).SM
        (hllcWaves sqrt face cl.w cr.w).p_star
      = flux face cl.w (hllcWaves sqrt face cl.w cr.w).ql (computePV sqrt cl.w).p
        + (hllcWaves sqrt face cl.w cr.w).SL • (wlStar sqrt face cl.w cr.w - cl.w)
    ∧ flux face (wrStar sqrt face cl.w cr.w) (hllcWaves sqrt face cl.w cr.w).SM
        (hllcWaves sqrt face cl.w cr.w).p_star
      = flux face cr.w (hllcWaves sqrt face cl.w cr.w).qr (computePV sqrt cr.w).p
        + (hllcWaves sqrt face cl.w cr.w).SR • (wrStar sqrt face cl.w cr.w - cr.w)
    ∧ ((hllcWaves sqrt face cl.w cr.w).SL ≤ 0 → 0 < (hllcWaves sqrt face cl.w cr.w).SM →
        HLLC sqrt cells face
          = .ok (flux face cl.w (hllcWaves sqrt face cl.w cr.w).ql (computePV sqrt cl.w).p
            + (hllcWaves sqrt face cl.w cr.w).SL • (wlStar sqrt face cl.w cr.w - cl.w)))
    ∧ ((hllcWaves sqrt face cl.w cr.w).SL ≤ 0 → (hllcWaves sqrt face cl.w cr.w).SM ≤ 0 →
        0 ≤ (hllcWaves sqrt face cl.w cr.w).SR →
        HLLC sqrt cells face
          = .ok (flux face cr.w (hllcWaves sqrt face cl.w cr.w).qr (computePV sqrt cr.w).p
            + (hllcWaves sqrt face cl.w cr.w).SR • (wrStar sqrt face cl.w cr.w - cr.w)))
    ∧ ((hllcWaves sqrt face cl.w cr.w).SL = 0 →
        flux face (wlStar sqrt face cl.w cr.w) (hllcWaves sqrt face cl.w cr.w).SM
            (hllcWaves sqrt face cl.w cr.w).p_star
          = flux face cl.w (hllcWaves sqrt face cl.w cr.w).ql (computePV sqrt cl.w).p)
    ∧ ((hllcWaves sqrt face cl.w cr.w).SR = 0 →
        flux face (wrStar sqrt face cl.w cr.w) (hllcWaves sqrt face cl.w cr.w).SM
            (hllcWaves sqrt face cl.w cr.w).p_star
          = flux face cr.w (hllcWaves sqrt face cl.w cr.w).qr (computePV sqrt cr.w).p) := by
  have hjl := star_flux_jump face cl.w (hllcWaves sqrt face cl.w cr.w).ql
    (hllcWaves sqrt face cl.w cr.w).SL (hllcWaves sqrt face cl.w cr.w).SM
    (computePV sqrt cl.w).p (hllcWaves sqrt face cl.w cr.w).p_star hL
  have hjr := star_flux_jump face cr.w (hllcWaves sqrt face cl.w cr.w).qr
    (hllcWaves sqrt face cl.w cr.w).SR (hllcWaves sqrt face cl.w cr.w).SM
    (computePV sqrt cr.w).p (hllcWaves sqrt face cl.w cr.w).p_star hR
  have hcases := HLLC_eq_cases sqrt cells face cl cr hl hr
  refine ⟨hjl, hjr, ?_, ?_, ?_, ?_⟩
  · intro h1 h2
    rw [hcases, if_neg (not_lt.mpr h1), if_pos h2]
    exact congrArg Except.ok hjl
  · intro h1 h2 h3
    rw [hcases, if_neg (not_lt.mpr h1), if_neg (not_lt.mpr h2), if_pos h3]
    exact congrArg Except.ok hjr
  · intro h0
    have h : flux face (wlStar sqrt face cl.w cr.w) (hllcWaves sqrt face cl.w cr.w).SM
        (hllcWaves sqrt face cl.w cr.w).p_star
      = flux face cl.w (hllcWaves sqrt face cl.w cr.w).ql (computePV sqrt cl.w).p
        + (hllcWaves sqrt face cl.w cr.w).SL • (wlStar sqrt face cl.w cr.w - cl.w) := hjl
    rw [h, h0, Conservative.add_zero_smul]
  · intro h0
    have h : flux face (wrStar sqrt face cl.w cr.w) (hllcWaves sqrt face cl.w cr.w).SM
        (hllcWaves sqrt face cl.w cr.w).p_star
      = flux face cr.w (hllcWaves sqrt face cl.w cr.w).qr (computePV sqrt cr.w).p
        + (hllcWaves sqrt face cl.w cr.w).SR • (wrStar sqrt face cl.w cr.w - cr.w) := hjr
    rw [h, h0, Conservative.add_zero_smul]


theorem hllcWaves_wOne :
    hllcWaves Real.sqrt (faceOne : Interface ℝ) wOne wOne
      = { ql := 0, qr := 0, c_bar := 1, SL := -1, SR := 1, SM := 0, p_star := 5 / 7 } := by
  rw [hllcWaves_same faceOne wOne (by norm_num [wOne])
    (by norm_num [computePV, wOne, Def.KAPPA])]
  simp only [computePV_wOne, faceOne]
  norm_num

/-- Two cells holding `wOne` across `faceOne`, where `SL = -1`, `SM = 0`, `SR = 1`,
for C20. -/
theorem HLLC_rankine_hugoniot_witness :
    flux faceOne (wlStar Real.sqrt faceOne wOne wOne)
        (hllcWaves Real.sqrt faceOne wOne wOne).SM (hllcWaves Real.sqrt faceOne wOne wOne).p_star
      = flux faceOne wOne (hllcWaves Real.sqrt faceOne wOne wOne).ql
          (computePV Real.sqrt wOne).p
        + (hllcWaves Real.sqrt faceOne wOne wOne).SL
          • (wlStar Real.sqrt faceOne wOne wOne - wOne)
    ∧ flux faceOne (wrStar Real.sqrt faceOne wOne wOne)
        (hllcWaves Real.sqrt faceOne wOne wOne).SM (hllcWaves Real.sqrt faceOne wOne wOne).p_star
      = flux faceOne wOne (hllcWaves Real.sqrt faceOne wOne wOne).qr
          (computePV Real.sqrt wOne).p
        + (hllcWaves Real.sqrt faceOne wOne wOne).SR
          • (wrStar Real.sqrt faceOne wOne wOne - wOne)
    ∧ ((hllcWaves Real.sqrt faceOne wOne wOne).SL ≤ 0 →
        0 < (hllcWaves Real.sqrt faceOne wOne wOne).SM →
        HLLC Real.sqrt [(0, cellOne), (1, cellOne)] faceOne
          = .ok (flux faceOne wOne (hllcWaves Real.sqrt faceOne wOne wOne).ql
              (computePV Real.sqrt wOne).p
            + (hllcWaves Real.sqrt faceOne wOne wOne).SL
              • (wlStar Real.sqrt faceOne wOne wOne - wOne)))
    ∧ ((hllcWaves Real.sqrt faceOne wOne wOne).SL ≤ 0 →
        (hllcWaves Real.sqrt faceOne wOne wOne).SM ≤ 0 →
        0 ≤ (hllcWaves Real.sqrt faceOne wOne wOne).SR →
        HLLC Real.sqrt [(0, cellOne), (1, cellOne)] faceOne
          = .ok (flux faceOne wOne (hllcWaves Real.sqrt faceOne wOne wOne).qr
              (computePV Real.sqrt wOne).p
            + (hllcWaves Real.sqrt faceOne wOne wOne).SR
              • (wrStar Real.sqrt faceOne wOne wOne - wOne)))
    ∧ ((hllcWaves Real.sqrt faceOne wOne wOne).SL = 0 →
        flux faceOne (wlStar Real.sqrt faceOne wOne wOne)
            (hllcWaves Real.sqrt faceOne wOne wOne).SM
            (hllcWaves Real.sqrt faceOne wOne wOne).p_star
          = flux faceOne wOne (hllcWaves Real.sqrt faceOne wOne wOne).ql
              (computePV Real.sqrt wOne).p)
    ∧ ((hllcWaves Real.sqrt faceOne wOne wOne).SR = 0 →
        flux faceOne (wrStar Real.sqrt faceOne wOne wOne)
            (hllcWaves Real.sqrt faceOne wOne wOne).SM
            (hllcWaves Real.sqrt faceOne wOne wOne).p_star
          = flux faceOne wOne (hllcWaves Real.sqrt faceOne wOne wOne).qr
              (computePV Real.sqrt wOne).p) :=
  HLLC_rankine_hugoniot Real.sqrt [(0, cellOne), (1, cellOne)] faceOne cellOne cellOne
    rfl rfl
    (by
      show (hllcWaves Real.sqrt faceOne wOne wOne).SL ≠ (hllcWaves Real.sqrt faceOne wOne wOne).SM
      rw [hllcWaves_wOne]
      norm_num)
    (by
      show (hllcWaves Real.sqrt faceOne wOne wOne).SR ≠ (hllcWaves Real.sqrt faceOne wOne wOne).SM
      rw [hllcWaves_wOne]
      norm_num)

/-! ### Case selection of the solvers (C14, C15) -/

theorem HLL_eq_cases {K : Type} [LinearOrderedField K] (sqrt : K → K) (error : Bool)
    (cells : Cells K) (face : Interface K) (cl cr : Cell K)
    (hl : cellAt cells face.left = .ok cl) (hr : cellAt cells face.right = .ok cr) :
    HLL sqrt error cells face
      = .ok (hllSelectSpec (hllSL sqrt face cl.w cr.w) (hllSR sqrt face cl.w cr.w)
          (physFlux sqrt face cl.w) (physFlux sqrt face cr.w) (hllBlend sqrt face cl.w cr.w),
        error) := by
  unfold HLL
  simp only [hl, hr, bind, Except.bind, pure, Except.pure]
  by_cases h1 : hllSL sqrt face cl.w cr.w > 0
  · have h1u := h1
    unfold hllSL at h1u
    simp only [hllSelectSpec, h1, h1u, if_true]
    rfl
  · have h1u := h1
    unfold hllSL at h1u
    have h1' : hllSL sqrt face cl.w cr.w ≤ 0 := not_lt.mp h1
    have h1'u := h1'
    unfold hllSL at h1'u
    by_cases h2 : 0 ≤ hllSR sqrt face cl.w cr.w
    · have h2u := h2
      unfold hllSR at h2u
      simp only [hllSelectSpec, h1, h1u, if_false, h1'u, h2u, and_self, if_true,
        not_lt.mpr h2]
      rfl
    · have h2u := h2
      unfold hllSR at h2u
      have h2' : hllSR sqrt face cl.w cr.w < 0 := not_le.mp h2
      have h2'u := h2'
      unfold hllSR at h2'u
      simp only [hllSelectSpec, h1, h1u, if_false, h2u, and_false, h2', h2'u, if_true]
      rfl


theorem hllSL_le_hllSR (face : Interface ℝ) (wl wr : Conservative ℝ) :
    hllSL Real.sqrt face wl wr ≤ hllSR Real.sqrt face wl wr := by
  have hc : 0 ≤ (computePV Real.sqrt wl).c := Real.sqrt_nonneg _
  unfold hllSL hllSR
  refine le_trans (min_le_left _ _) (le_trans ?_ (le_max_left _ _))
  linarith

/-- C14: `HLL` returns `F_L` when `SL > 0`, `F_R` when `SR < 0`, and otherwise the blend
`(SR*F_L - SL*F_R + SR*SL*(W_R - W_L))/(SR - SL)`, with `SL = min(qL - cL, qR - cR)` and
`SR = max(qL + cL, qR + cR)`; the result is the one selected in the order of the spec
(`hllSelectSpec`), and `SL <= SR`. -/
theorem HLL_case_selection (error : Bool) (cells : Cells ℝ) (face : Interface ℝ)
    (cl cr : Cell ℝ)
    (hl : cellAt cells face.left = .ok cl) (hr : cellAt cells face.right = .ok cr) :
    HLL Real.sqrt error cells face
      = .ok (hllSelectSpec (hllSL Real.sqrt face cl.w cr.w) (hllSR Real.sqrt face cl.w cr.w)
          (physFlux Real.sqrt face cl.w) (physFlux Real.sqrt face cr.w)
          (hllBlend Real.sqrt face cl.w cr.w), error)
    ∧ (hllSL Real.sqrt face cl.w cr.w > 0 →
        HLL Real.sqrt error cells face = .ok (physFlux Real.sqrt face cl.w, error))
    ∧ (hllSR Real.sqrt face cl.w cr.w < 0 →
        HLL Real.sqrt error cells face = .ok (physFlux Real.sqrt face cr.w, error))
    ∧ (hllSL Real.sqrt face cl.w cr.w ≤ 0 → 0 ≤ hllSR Real.sqrt face cl.w cr.w →
        HLL Real.sqrt error cells face = .ok (hllBlend Real.sqrt face cl.w cr.w, error))
    ∧ hllSL Real.sqrt face cl.w cr.w ≤ hllSR Real.sqrt face cl.w cr.w := by
  have h := HLL_eq_cases Real.sqrt error cells face cl cr hl hr
  have hle := hllSL_le_hllSR face cl.w cr.w
  refine ⟨h, ?_, ?_, ?_, hle⟩
  · intro h1
    rw [h, hllSelectSpec, if_pos h1]
  · intro h2
    have h1 : ¬ hllSL Real.sqrt face cl.w cr.w > 0 := by
      intro h1
      linarith
    rw [h, hllSelectSpec, if_neg h1, if_pos h2]
  · intro h1 h2
    rw [h, hllSelectSpec, if_neg (not_lt.mpr h1), if_neg (not_lt.mpr h2)]

/-- Two cells holding `wOne` across `faceOne`, for C14. -/
theorem HLL_case_selection_witness :
    HLL Real.sqrt false [(0, cellOne), (1, cellOne)] faceOne
      = .ok (hllSelectSpec (hllSL Real.sqrt faceOne wOne wOne) (hllSR Real.sqrt faceOne wOne wOne)
          (physFlux Real.sqrt faceOne wOne) (physFlux Real.sqrt faceOne wOne)
          (hllBlend Real.sqrt faceOne wOne wOne), false)
    ∧ (hllSL Real.sqrt faceOne wOne wOne > 0 →
        HLL Real.sqrt false [(0, cellOne), (1, cellOne)] faceOne
          = .ok (physFlux Real.sqrt faceOne wOne, false))
    ∧ (hllSR Real.sqrt faceOne wOne wOne < 0 →
        HLL Real.sqrt false [(0, cellOne), (1, cellOne)] faceOne
          = .ok (physFlux Real.sqrt faceOne wOne, false))
    ∧ (hllSL Real.sqrt faceOne wOne wOne ≤ 0 → 0 ≤ hllSR Real.sqrt faceOne wOne wOne →
        HLL Real.sqrt false [(0, cellOne), (1, cellOne)] faceOne
          = .ok (hllBlend Real.sqrt faceOne wOne wOne, false))
    ∧ hllSL Real.sqrt faceOne wOne wOne ≤ hllSR Real.sqrt faceOne wOne wOne :=
  HLL_case_selection false [(0, cellOne), (1, cellOne)] faceOne cellOne cellOne rfl rfl

/-- C15: the branch conditions of both solvers cover every choice of wave speeds in a
linear order; `HLL` never takes its error branch (the value of `Def::error` after the
call is its value before) and `HLLC` never leaves through its final else-branch; when
both cells of the face are present, both solvers return a flux. -/
theorem solver_branches_exhaustive {K : Type} [LinearOrderedField K] (sqrt : K → K)
    (error : Bool) (cells : Cells K) (face : Interface K) :
    (∀ SL SR : K, SL > 0 ∨ (SL ≤ 0 ∧ 0 ≤ SR) ∨ SR < 0)
    ∧ (∀ SL SM SR : K, SL > 0 ∨ (SL ≤ 0 ∧ 0 < SM) ∨ (SM ≤ 0 ∧ 0 ≤ SR) ∨ SR < 0)
    ∧ (∀ F e, HLL sqrt error cells face = .ok (F, e) → e = error)
    ∧ HLLC sqrt cells face ≠ .error Fault.noReturn
    ∧ (∀ cl cr, cellAt cells face.left = .ok cl → cellAt cells face.right = .ok cr →
        (∃ F, HLL sqrt error cells face = .ok (F, error))
        ∧ ∃ F, HLLC sqrt cells face = .ok F) := by
  refine ⟨?_, ?_, ?_, ?_, ?_⟩
  · intro SL SR
    rcases lt_or_le 0 SL with h | h
    · exact Or.inl h
    · rcases le_or_lt 0 SR with h2 | h2
      · exact Or.inr (Or.inl ⟨h, h2⟩)
      · exact Or.inr (Or.inr h2)
  · intro SL SM SR
    rcases lt_or_le 0 SL with h | h
    · exact Or.inl h
    · rcases lt_or_le 0 SM with h2 | h2
      · exact Or.inr (Or.inl ⟨h, h2⟩)
      · rcases le_or_lt 0 SR with h3 | h3
        · exact Or.inr (Or.inr (Or.inl ⟨h2, h3⟩))
        · exact Or.inr (Or.inr (Or.inr h3))
  · intro F e h
    cases hl : cellAt cells face.left with
    | error x =>
      unfold HLL at h
      simp [hl, bind, Except.bind] at h
    | ok cl =>
      cases hr : cellAt cells face.right with
      | error x =>
        unfold HLL at h
        simp [hl, hr, bind, Except.bind] at h
      | ok cr =>
        obtain ⟨G, hG⟩ := HLL_returns sqrt error cells face cl cr hl hr
        rw [hG] at h
        injection h with h2
        injection h2 with _ h3
        exact h3.symm
  · intro h
    cases hl : cellAt cells face.left with
    | error x =>
      unfold HLLC at h
      simp only [hl, bind, Except.bind] at h
      unfold cellAt at hl
      cases hlk : List.lookup face.left cells with
      | none =>
        rw [hlk] at hl
        injection hl with h4
        rw [← h4] at h
        injection h with h5
        cases h5
      | some c =>
        rw [hlk] at hl
        cases hl
    | ok cl =>
      cases hr : cellAt cells face.right with
      | error x =>
        unfold HLLC at h
        simp only [hl, hr, bind, Except.bind] at h
        unfold cellAt at hr
        cases hrk : List.lookup face.right cells with
        | none =>
          rw [hrk] at hr
          injection hr with h4
          rw [← h4] at h
          injection h with h5
          cases h5
        | some c =>
          rw [hrk] at hr
          cases hr
      | ok cr =>
        obtain ⟨G, hG⟩ := HLLC_returns sqrt cells face cl cr hl hr
        rw [hG] at h
        cases h
  · intro cl cr hl hr
    exact ⟨HLL_returns sqrt error cells face cl cr hl hr,
      HLLC_returns sqrt cells face cl cr hl hr⟩

/-! ### The effect of one face on the container (C16) -/

theorem keys_cellModify {K : Type} (cells : Cells K) (k : Int) (f : Cell K → Cell K) :
    (cellModify cells k f).map Prod.fst = cells.map Prod.fst := by
  unfold cellModify
  rw [List.map_map]
  apply List.map_congr_left
  intro e _
  by_cases h : e.1 = k
  · simp [h]
  · simp [h]

theorem faceFlux_solver {K : Type} [LinearOrderedField K] (sqrt : K → K) (isHLLC : Bool)
    (st : Cells K × Bool) (face : Interface K) (F : Conservative K)
    (h : faceFlux sqrt isHLLC st face = .ok (F, st.2)) :
    (isHLLC = true → HLLC sqrt st.1 face = .ok F)
    ∧ (isHLLC = false → HLL sqrt st.2 st.1 face = .ok (F, st.2)) := by
  constructor
  · intro hb
    rw [hb] at h
    unfold faceFlux at h
    simp only [if_true] at h
    cases hH : HLLC sqrt st.1 face with
    | error e =>
      rw [hH] at h
      cases h
    | ok G =>
      rw [hH] at h
      simp only [Except.map] at h
      injection h with h2
      injection h2 with h3 _
      rw [h3]
  · intro hb
    rw [hb] at h
    unfold faceFlux at h
    simpa using h

/-- C16: for a face whose left and right cells are distinct and present,
`computeSchemeFace` returns a container in which the left cell differs from the old left
cell only by `rezi - (dt/area) * flux * length`, the right cell differs from the old right
cell only by `rezi + (dt/area) * flux * length` (each with its own `dt` and `area`), and
the cell under every other index is unchanged; the keys and their order are unchanged,
and `flux` is the value returned by `HLLC` when `Def::isHLLC` is set and by `HLL`
otherwise. -/
theorem computeSchemeFace_frame {K : Type} [LinearOrderedField K] (sqrt : K → K)
    (isHLLC : Bool) (st : Cells K × Bool) (face : Interface K) (cl cr : Cell K)
    (hl : cellAt st.1 face.left = .ok cl) (hr : cellAt st.1 face.right = .ok cr)
    (hne : face.left ≠ face.right) :
    ∃ F st', (isHLLC = true → HLLC sqrt st.1 face = .ok F)
      ∧ (isHLLC = false → HLL sqrt st.2 st.1 face = .ok (F, st.2))
      ∧ computeSchemeFace sqrt isHLLC st face = .ok st'
      ∧ cellAt st'.1 face.left
          = .ok { cl with rezi := cl.rezi - ((cl.dt / cl.area) • F).muls face.length }
      ∧ cellAt st'.1 face.right
          = .ok { cr with rezi := cr.rezi + ((cr.dt / cr.area) • F).muls face.length }
      ∧ (∀ k, k ≠ face.left → k ≠ face.right → cellAt st'.1 k = cellAt st.1 k)
      ∧ st'.1.map Prod.fst = st.1.map Prod.fst
      ∧ st'.2 = st.2 := by
  obtain ⟨F, hF, h⟩ := computeSchemeFace_eq sqrt isHLLC st face cl cr hl hr
  obtain ⟨h1, h2⟩ := faceFlux_solver sqrt isHLLC st face F hF
  refine ⟨F, _, h1, h2, h, ?_, ?_, ?_, ?_, rfl⟩
  · simp only [cellAt_cellModify, if_neg hne, if_true, hl]
    rfl
  · simp only [cellAt_cellModify, if_neg (Ne.symm hne), if_true, hr]
    rfl
  · intro k hk1 hk2
    simp only [cellAt_cellModify, if_neg hk1, if_neg hk2]
  · simp only [keys_cellModify]

/-- The cells `cellOne` and `cellWide` across `faceOne`, with the HLL flux, for C16. -/
theorem computeSchemeFace_frame_witness :
    ∃ F st', ((false : Bool) = true →
        HLLC Real.sqrt [(0, (cellOne : Cell ℝ)), (1, cellWide)] faceOne = .ok F)
      ∧ ((false : Bool) = false →
        HLL Real.sqrt false [(0, (cellOne : Cell ℝ)), (1, cellWide)] faceOne = .ok (F, false))
      ∧ computeSchemeFace Real.sqrt false ([(0, cellOne), (1, cellWide)], false) faceOne
          = .ok st'
      ∧ cellAt st'.1 0
          = .ok { (cellOne : Cell ℝ) with
              rezi := (cellOne : Cell ℝ).rezi - (((1 : ℝ) / 1) • F).muls 1 }
      ∧ cellAt st'.1 1
          = .ok { (cellWide : Cell ℝ) with
              rezi := (cellWide : Cell ℝ).rezi + (((1 : ℝ) / 2) • F).muls 1 }
      ∧ (∀ k, k ≠ 0 → k ≠ 1 →
          cellAt st'.1 k = cellAt [(0, (cellOne : Cell ℝ)), (1, cellWide)] k)
      ∧ st'.1.map Prod.fst = [0, 1]
      ∧ st'.2 = false :=
  computeSchemeFace_frame Real.sqrt false ([(0, cellOne), (1, cellWide)], false) faceOne
    cellOne cellWide rfl rfl (by decide)

/-! ### The scenario of the initial state (C11) -/

theorem computePV_wInitial_fields :
    (computePV Real.sqrt (Def.wInitial : Conservative ℝ)).u = 0.65 ∧
    (computePV Real.sqrt (Def.wInitial : Conservative ℝ)).v = 0 ∧
    (computePV Real.sqrt (Def.wInitial : Conservative ℝ)).p = 0.75 := by
  refine ⟨?_, ?_, ?_⟩ <;>
    norm_num [computePV, Def.wInitial, Def.conservativeOf, Def.rhoE, Def.rhoInitial,
      Def.uInitial, Def.vInitial, Def.pInitial, Def.KAPPA]

theorem flux_wInitial :
    flux (faceOne : Interface ℝ) Def.wInitial
        ((computePV Real.sqrt (Def.wInitial : Conservative ℝ)).u * (faceOne : Interface ℝ).nx
          + (computePV Real.sqrt (Def.wInitial : Conservative ℝ)).v
            * (faceOne : Interface ℝ).ny)
        (computePV Real.sqrt (Def.wInitial : Conservative ℝ)).p
      = ⟨0.65, 1.1725, 0, 1.8435625⟩ := by
  obtain ⟨hu, hv, hp⟩ := computePV_wInitial_fields
  rw [hu, hv, hp]
  rw [Conservative.eq_iff]
  norm_num [flux, faceOne, Def.wInitial, Def.conservativeOf, Def.rhoE, Def.rhoInitial,
    Def.uInitial, Def.vInitial, Def.pInitial, Def.KAPPA]

/-- C11: for the face with normal `(1, 0)` and length 1 between two cells holding the
state built from `rho = 1`, `u = 0.65`, `v = 0`, `p = 0.75` (`Def::wInitial`), with
`KAPPA = 1.4`, the flux returned by `HLL` and the flux returned by `HLLC` have mass
component 0.65 and x-momentum component 1.1725. -/
theorem initial_state_flux :
    (∃ F, HLL Real.sqrt false [(0, cellInitial), (1, cellInitial)] faceOne = .ok (F, false)
      ∧ F.r1 = 0.65 ∧ F.r2 = 1.1725)
    ∧ (∃ F, HLLC Real.sqrt [(0, cellInitial), (1, cellInitial)] faceOne = .ok F
      ∧ F.r1 = 0.65 ∧ F.r2 = 1.1725) := by
  have hrho : (0 : ℝ) < (Def.wInitial : Conservative ℝ).r1 := by
    norm_num [Def.wInitial, Def.conservativeOf, Def.rhoInitial]
  have hp : (0 : ℝ) < (computePV Real.sqrt (Def.wInitial : Conservative ℝ)).p := by
    rw [computePV_wInitial_fields.2.2]
    norm_num
  have hc := computePV_c_pos Def.wInitial hrho hp
  have hl : cellAt [(0, (cellInitial : Cell ℝ)), (1, cellInitial)] (faceOne : Interface ℝ).left
      = .ok cellInitial := rfl
  have hr : cellAt [(0, (cellInitial : Cell ℝ)), (1, cellInitial)]
      (faceOne : Interface ℝ).right = .ok cellInitial := rfl
  have hw : (cellInitial : Cell ℝ).w = Def.wInitial := rfl
  have hF := flux_wInitial
  constructor
  · refine ⟨⟨0.65, 1.1725, 0, 1.8435625⟩, ?_, rfl, rfl⟩
    unfold HLL
    simp only [hl, hr, hw, bind, Except.bind, pure, Except.pure, min_self, max_self]
    split_ifs with h1 h2 h3
    · rw [hF]
    · rw [hll_blend_same _ _ _ _ (by linarith), hF]
    · rw [hF]
    · exfalso
      push_neg at h1 h3
      exact h2 ⟨h1, h3⟩
  · refine ⟨⟨0.65, 1.1725, 0, 1.8435625⟩, ?_, rfl, rfl⟩
    unfold HLLC
    simp only [hl, hr, hw, bind, Except.bind, pure, Except.pure,
      hllcWaves_same faceOne Def.wInitial hrho hp]
    rw [fluxStar_same faceOne Def.wInitial _ _ _ (by linarith),
      fluxStar_same faceOne Def.wInitial _ _ _ (by linarith)]
    split_ifs with h1 h2 h3 h4
    · rw [hF]
    · rw [hF]
    · rw [hF]
    · rw [hF]
    · exfalso
      push_neg at h1 h2 h3 h4
      have h5 := h2 h1
      have h6 := h3 h5
      linarith

/-! ### The Roe speed of sound (C18) -/

theorem roe_radicand_eq (wl wr : Conservative ℝ)
    (hrl : 0 < wl.r1) (hpl : 0 < (computePV Real.sqrt wl).p)
    (hrr : 0 < wr.r1) (hpr : 0 < (computePV Real.sqrt wr).p) :
    (Def.KAPPA - 1) * (bar Real.sqrt (computePV Real.sqrt wl).rho (computePV Real.sqrt wr).rho
          (computePV Real.sqrt wl).h (computePV Real.sqrt wr).h
        - 0.5 * ((bar Real.sqrt (computePV Real.sqrt wl).rho (computePV Real.sqrt wr).rho
              (computePV Real.sqrt wl).u (computePV Real.sqrt wr).u) ^ 2
            + (bar Real.sqrt (computePV Real.sqrt wl).rho (computePV Real.sqrt wr).rho
              (computePV Real.sqrt wl).v (computePV Real.sqrt wr).v) ^ 2))
      = Real.sqrt wl.r1 / (Real.sqrt wl.r1 + Real.sqrt wr.r1) * (computePV Real.sqrt wl).c ^ 2
        + Real.sqrt wr.r1 / (Real.sqrt wl.r1 + Real.sqrt wr.r1)
          * (computePV Real.sqrt wr).c ^ 2
        + 1 / 5 * (Real.sqrt wl.r1 / (Real.sqrt wl.r1 + Real.sqrt wr.r1))
          * (Real.sqrt wr.r1 / (Real.sqrt wl.r1 + Real.sqrt wr.r1))
          * (((computePV Real.sqrt wl).u - (computePV Real.sqrt wr).u) ^ 2
            + ((computePV Real.sqrt wl).v - (computePV Real.sqrt wr).v) ^ 2) := by
  have hsL : 0 < Real.sqrt wl.r1 := Real.sqrt_pos.mpr hrl
  have hsR : 0 < Real.sqrt wr.r1 := Real.sqrt_pos.mpr hrr
  have hab : Real.sqrt wl.r1 / (Real.sqrt wl.r1 + Real.sqrt wr.r1)
      + Real.sqrt wr.r1 / (Real.sqrt wl.r1 + Real.sqrt wr.r1) = 1 := by
    field_simp
  have hrhoL : (computePV Real.sqrt wl).rho = wl.r1 := rfl
  have hrhoR : (computePV Real.sqrt wr).rho = wr.r1 := rfl
  rw [hrhoL, hrhoR, bar_weights _ _ _ _ hrl hrr, bar_weights _ _ _ _ hrl hrr,
    bar_weights _ _ _ _ hrl hrr]
  exact roe_radicand_abs _ _ _ _ _ _ _ _ _ _ _ hab (by unfold Def.KAPPA; norm_num)
    (computePV_enthalpy wl hrl hpl) (computePV_enthalpy wr hrr hpr)

/-- C18: for left and right states with positive density and pressure, the radicand
`(KAPPA - 1)*(h_bar - 0.5*(u_bar^2 + v_bar^2))` of the Roe speed of sound in `HLLC`, with
the bar quantities the sqrt-density-weighted averages, is strictly positive; `c_bar` is
its square root, strictly positive, and `c_bar^2` is the radicand. -/
theorem HLLC_roe_radicand_pos (face : Interface ℝ) (wl wr : Conservative ℝ)
    (hrl : 0 < wl.r1) (hpl : 0 < (computePV Real.sqrt wl).p)
    (hrr : 0 < wr.r1) (hpr : 0 < (computePV Real.sqrt wr).p) :
    0 < (Def.KAPPA - 1) * (bar Real.sqrt (computePV Real.sqrt wl).rho
          (computePV Real.sqrt wr).rho (computePV Real.sqrt wl).h (computePV Real.sqrt wr).h
        - 0.5 * ((bar Real.sqrt (computePV Real.sqrt wl).rho (computePV Real.sqrt wr).rho
              (computePV Real.sqrt wl).u (computePV Real.sqrt wr).u) ^ 2
            + (bar Real.sqrt (computePV Real.sqrt wl).rho (computePV Real.sqrt wr).rho
              (computePV Real.sqrt wl).v (computePV Real.sqrt wr).v) ^ 2))
    ∧ (hllcWaves Real.sqrt face wl wr).c_bar
        = Real.sqrt ((Def.KAPPA - 1) * (bar Real.sqrt (computePV Real.sqrt wl).rho
          (computePV Real.sqrt wr).rho (computePV Real.sqrt wl).h (computePV Real.sqrt wr).h
        - 0.5 * ((bar Real.sqrt (computePV Real.sqrt wl).rho (computePV Real.sqrt wr).rho
              (computePV Real.sqrt wl).u (computePV Real.sqrt wr).u) ^ 2
            + (bar Real.sqrt (computePV Real.sqrt wl).rho (computePV Real.sqrt wr).rho
              (computePV Real.sqrt wl).v (computePV Real.sqrt wr).v) ^ 2)))
    ∧ 0 < (hllcWaves Real.sqrt face wl wr).c_bar
    ∧ (hllcWaves Real.sqrt face wl wr).c_bar ^ 2
        = (Def.KAPPA - 1) * (bar Real.sqrt (computePV Real.sqrt wl).rho
          (computePV Real.sqrt wr).rho (computePV Real.sqrt wl).h (computePV Real.sqrt wr).h
        - 0.5 * ((bar Real.sqrt (computePV Real.sqrt wl).rho (computePV Real.sqrt wr).rho
              (computePV Real.sqrt wl).u (computePV Real.sqrt wr).u) ^ 2
            + (bar Real.sqrt (computePV Real.sqrt wl).rho (computePV Real.sqrt wr).rho
              (computePV Real.sqrt wl).v (computePV Real.sqrt wr).v) ^ 2)) := by
  have hsL : 0 < Real.sqrt wl.r1 := Real.sqrt_pos.mpr hrl
  have hsR : 0 < Real.sqrt wr.r1 := Real.sqrt_pos.mpr hrr
  have hcL := computePV_c_pos wl hrl hpl
  have hcR := computePV_c_pos wr hrr hpr
  have hpos : 0 < (Def.KAPPA - 1) * (bar Real.sqrt (computePV Real.sqrt wl).rho
          (computePV Real.sqrt wr).rho (computePV Real.sqrt wl).h (computePV Real.sqrt wr).h
        - 0.5 * ((bar Real.sqrt (computePV Real.sqrt wl).rho (computePV Real.sqrt wr).rho
              (computePV Real.sqrt wl).u (computePV Real.sqrt wr).u) ^ 2
            + (bar Real.sqrt (computePV Real.sqrt wl).rho (computePV Real.sqrt wr).rho
              (computePV Real.sqrt wl).v (computePV Real.sqrt wr).v) ^ 2)) := by
    rw [roe_radicand_eq wl wr hrl hpl hrr hpr]
    positivity
  refine ⟨hpos, rfl, ?_, ?_⟩
  · exact Real.sqrt_pos.mpr hpos
  · exact Real.sq_sqrt hpos.le

/-- The face `faceOne` between the states `wOne` and `wDense`, for C18. -/
theorem HLLC_roe_radicand_pos_witness :
    0 < (Def.KAPPA - 1) * (bar Real.sqrt (computePV Real.sqrt (wOne : Conservative ℝ)).rho
          (computePV Real.sqrt (wDense : Conservative ℝ)).rho
          (computePV Real.sqrt (wOne : Conservative ℝ)).h
          (computePV Real.sqrt (wDense : Conservative ℝ)).h
        - 0.5 * ((bar Real.sqrt (computePV Real.sqrt (wOne : Conservative ℝ)).rho
              (computePV Real.sqrt (wDense : Conservative ℝ)).rho
              (computePV Real.sqrt (wOne : Conservative ℝ)).u
              (computePV Real.sqrt (wDense : Conservative ℝ)).u) ^ 2
            + (bar Real.sqrt (computePV Real.sqrt (wOne : Conservative ℝ)).rho
              (computePV Real.sqrt (wDense : Conservative ℝ)).rho
              (computePV Real.sqrt (wOne : Conservative ℝ)).v
              (computePV Real.sqrt (wDense : Conservative ℝ)).v) ^ 2))
    ∧ 0 < (hllcWaves Real.sqrt faceOne wOne wDense).c_bar :=
  have h := HLLC_roe_radicand_pos faceOne wOne wDense (by norm_num [wOne])
    (by norm_num [computePV, wOne, Def.KAPPA]) (by norm_num [wDense])
    (by norm_num [computePV, wDense, Def.KAPPA])
  ⟨h.1, h.2.2.1⟩

/-! ### Unrealizable states (C12) -/

theorem computePV_wVoid :
    computePV Real.sqrt (wVoid : Conservative ℝ) = ⟨-1, 0, 0, -(5 / 7), 1, 5 / 2, 0⟩ := by
  have h1 : Real.sqrt (Def.KAPPA * ((Def.KAPPA - 1)
      * (-(25 / 14) - 0.5 * (-1) * ((0 / (-1) : ℝ) ^ 2 + (0 / (-1)) ^ 2))) / (-1)) = 1 := by
    rw [show (Def.KAPPA * ((Def.KAPPA - 1)
        * (-(25 / 14) - 0.5 * (-1) * ((0 / (-1) : ℝ) ^ 2 + (0 / (-1)) ^ 2))) / (-1)) = 1 by
      unfold Def.KAPPA; norm_num]
    exact Real.sqrt_one
  simp only [computePV, wVoid, h1]
  norm_num [Def.KAPPA]

/-- C12, counterexample: the state `wVoid` has density -1 and the pressure bracket
`E - 0.5*rho*(u^2 + v^2) = -25/14`; with it in both cells of `faceOne`, `HLL` returns the
flux `(0, -5/7, 0, 0)` and `Def::error` stays `false`. -/
theorem HLL_unrealizable_silent :
    (wVoid : Conservative ℝ).r1 ≤ 0
    ∧ (wVoid : Conservative ℝ).r4 - 0.5 * (wVoid : Conservative ℝ).r1
        * ((computePV Real.sqrt (wVoid : Conservative ℝ)).u ^ 2
          + (computePV Real.sqrt (wVoid : Conservative ℝ)).v ^ 2) < 0
    ∧ HLL Real.sqrt false [(0, cellVoid), (1, cellVoid)] faceOne
      = .ok (⟨0, -(5 / 7), 0, 0⟩, false) := by
  refine ⟨by norm_num [wVoid], ?_, ?_⟩
  · rw [computePV_wVoid]
    norm_num [wVoid]
  · have hl : cellAt [(0, (cellVoid : Cell ℝ)), (1, cellVoid)] (faceOne : Interface ℝ).left
        = .ok cellVoid := rfl
    have hr : cellAt [(0, (cellVoid : Cell ℝ)), (1, cellVoid)] (faceOne : Interface ℝ).right
        = .ok cellVoid := rfl
    have hw : (cellVoid : Cell ℝ).w = wVoid := rfl
    unfold HLL
    simp only [hl, hr, bind, Except.bind, pure, Except.pure]
    simp only [hw, computePV_wVoid, min_self, max_self, faceOne]
    norm_num [flux, Conservative.divs, Conservative.add_def, Conservative.sub_def,
      Conservative.smul_def, wVoid]

/-- C12, amended: the flux evaluations make no realizability check. Whatever states the
two cells of a face hold, when both cells are present `HLL` returns a flux and leaves
`Def::error` as it was, and so does the flux evaluation of `computeScheme` with either
solver; `HLLC` has no access to `Def::error`. -/
theorem flux_evaluation_keeps_error {K : Type} [LinearOrderedField K] (sqrt : K → K)
    (error : Bool) (cells : Cells K) (face : Interface K) (cl cr : Cell K)
    (hl : cellAt cells face.left = .ok cl) (hr : cellAt cells face.right = .ok cr) :
    (∃ F, HLL sqrt error cells face = .ok (F, error))
    ∧ (∃ F, HLLC sqrt cells face = .ok F
        ∧ faceFlux sqrt true (cells, error) face = .ok (F, error))
    ∧ (∃ F, faceFlux sqrt false (cells, error) face = .ok (F, error)) := by
  obtain ⟨F, hF⟩ := HLL_returns sqrt error cells face cl cr hl hr
  obtain ⟨G, hG⟩ := HLLC_returns sqrt cells face cl cr hl hr
  refine ⟨⟨F, hF⟩, ⟨G, hG, ?_⟩, ⟨F, ?_⟩⟩
  · simp [faceFlux, hG, Except.map]
  · simp [faceFlux, hF]

/-- The unrealizable state `wVoid` in both cells of `faceOne`, for C12. -/
theorem flux_evaluation_keeps_error_witness :
    (∃ F, HLL Real.sqrt false [(0, cellVoid), (1, cellVoid)] faceOne = .ok (F, false))
    ∧ (∃ F, HLLC Real.sqrt [(0, cellVoid), (1, cellVoid)] faceOne = .ok F
        ∧ faceFlux Real.sqrt true ([(0, cellVoid), (1, cellVoid)], false) faceOne
          = .ok (F, false))
    ∧ (∃ F, faceFlux Real.sqrt false ([(0, cellVoid), (1, cellVoid)], false) faceOne
        = .ok (F, false)) :=
  flux_evaluation_keeps_error Real.sqrt false [(0, cellVoid), (1, cellVoid)] faceOne
    cellVoid cellVoid rfl rfl

end FVM
